import Mathlib

/-!
# ipfs-go-ds-storj: the metadata store (`db/db.go`) and the pack pipeline

Strings are modelled as lists of byte values (`List Nat`), the way Go indexes a
`string` with `sql[i]`.  Byte constants used by the scanner:
`'?' = 63`, `'$' = 36`, `'-' = 45`, `'"' = 34`, the single quote `= 39`,
newline `= 10`, and the digits `'0' .. '9' = 48 .. 57`.
-/

namespace db

/-- The bytes of a string literal: its UTF-8 encoding. -/
def bytes (s : String) : List Nat :=
  (s.data.flatMap String.utf8EncodeChar).map UInt8.toNat

/-- The scanner states of `postgresRebind.Rebind`, in the order of the `iota` block. -/
inductive sqlParseState where
  | sqlParseStart
  | sqlParseInStringLiteral
  | sqlParseInQuotedIdentifier
  | sqlParseInComment
  deriving DecidableEq, Repr

open sqlParseState

/-- Digit loop of `strconv.Itoa` for a non-negative argument: the decimal digits of `n`
are pushed in front of `acc`, least significant first; `fuel` bounds the number of
digits. -/
def itoaAux : Nat → Nat → List Nat → List Nat
  | 0, _, acc => acc
  | fuel + 1, n, acc =>
    if n < 10 then (48 + n) :: acc
    else itoaAux fuel (n / 10) ((48 + n % 10) :: acc)

/-- The bytes `strconv.Itoa(j)` appends for a non-negative `j` (`j` starts at 1 and
only grows in `Rebind`). -/
def Itoa (j : Nat) : List Nat := itoaAux (j + 1) j []

/-- The `for i := 0; i < len(sql); i++` loop of `Rebind`.  The last argument is the
unread suffix `sql[i:]`, so `ch = sql[i]` is its head and `sql[i+1]` (when
`i+1 < len(sql)`) is the head of what follows. -/
def rebindLoop : List Nat → Nat → sqlParseState → List Nat → List Nat
  | out, _, _, [] => out
  | out, j, state, ch :: rest =>
    match state with
    | sqlParseStart =>
      if ch = 63 then
        -- case '?': append '$' and Itoa(j), j++, continue
        rebindLoop ((out ++ [36]) ++ Itoa j) (j + 1) sqlParseStart rest
      else if ch = 45 then
        -- case '-': a comment starts when the next byte is '-' too
        if rest.head? = some 45 then rebindLoop (out ++ [ch]) j sqlParseInComment rest
        else rebindLoop (out ++ [ch]) j sqlParseStart rest
      else if ch = 34 then
        rebindLoop (out ++ [ch]) j sqlParseInQuotedIdentifier rest
      else if ch = 39 then
        rebindLoop (out ++ [ch]) j sqlParseInStringLiteral rest
      else
        rebindLoop (out ++ [ch]) j sqlParseStart rest
    | sqlParseInStringLiteral =>
      if ch = 39 then rebindLoop (out ++ [ch]) j sqlParseStart rest
      else rebindLoop (out ++ [ch]) j sqlParseInStringLiteral rest
    | sqlParseInQuotedIdentifier =>
      if ch = 34 then rebindLoop (out ++ [ch]) j sqlParseStart rest
      else rebindLoop (out ++ [ch]) j sqlParseInQuotedIdentifier rest
    | sqlParseInComment =>
      if ch = 10 then rebindLoop (out ++ [ch]) j sqlParseStart rest
      else rebindLoop (out ++ [ch]) j sqlParseInComment rest

/-- Model of `postgresRebind.Rebind`: `out` empty, `j := 1`, `state := sqlParseStart`. -/
def Rebind (sql : List Nat) : List Nat := rebindLoop [] 1 sqlParseStart sql

/-- The scanner resumed in `sqlParseStart` with the next placeholder number `k`:
what `Rebind` does to a suffix once `k - 1` placeholders have been numbered. -/
def rebindFrom (k : Nat) (sql : List Nat) : List Nat := rebindLoop [] k sqlParseStart sql

/-- The byte that ends a scanner state other than `sqlParseStart`: the single quote for
a string literal, the double quote for a quoted identifier, the newline for a comment. -/
def closer : sqlParseState → Nat
  | sqlParseStart => 0
  | sqlParseInStringLiteral => 39
  | sqlParseInQuotedIdentifier => 34
  | sqlParseInComment => 10

/-! ### The specification's reading of rebinding -/

/-- The decimal digits of `k` as bytes, most significant first. -/
def decimal (k : Nat) : List Nat :=
  if k = 0 then [48] else (Nat.digits 10 k).reverse.map (fun d => 48 + d)

/-- Replace every `?` by `$` followed by the decimal digits of its running number,
starting at `k`; every other byte is kept. -/
def numberPlaceholders : Nat → List Nat → List Nat
  | _, [] => []
  | k, c :: cs =>
    if c = 63 then (36 :: decimal k) ++ numberPlaceholders (k + 1) cs
    else c :: numberPlaceholders k cs

/-! ### `DB.Migration` -/

/-- A `migrate.Step` as `DB.Migration` fills it: description, version and the
statements of its `migrate.SQL` action (the `DB` handle field is left out). -/
structure migrate.Step where
  Description : String
  Version : Int
  Action : List String
  deriving DecidableEq, Repr

/-- A `migrate.Migration`: the version table and the steps. -/
structure migrate.Migration where
  Table : String
  Steps : List migrate.Step
  deriving DecidableEq, Repr

/-- First statement of the migration step (a Go raw string, tabs and newlines kept). -/
def createBlocks : String :=
  "\n" ++
  "\t\t\t\t\tCREATE TABLE IF NOT EXISTS blocks (\n" ++
  "\t\t\t\t\t\tcid TEXT NOT NULL,\n" ++
  "\t\t\t\t\t\tsize INTEGER NOT NULL,\n" ++
  "\t\t\t\t\t\tcreated TIMESTAMP NOT NULL DEFAULT NOW(),\n" ++
  "\t\t\t\t\t\tdata BYTEA,\n" ++
  "\t\t\t\t\t\tdeleted BOOLEAN NOT NULL DEFAULT false,\n" ++
  "\t\t\t\t\t\tpack_object TEXT NOT NULL DEFAULT '',\n" ++
  "\t\t\t\t\t\tpack_offset INTEGER NOT NULL DEFAULT 0,\n" ++
  "\t\t\t\t\t\tpack_status INTEGER NOT NULL DEFAULT 0,\n" ++
  "\t\t\t\t\t\tPRIMARY KEY ( cid )\n" ++
  "\t\t\t\t\t)"

/-- Second statement of the migration step. -/
def createDatastore : String :=
  "\n" ++
  "\t\t\t\t\tCREATE TABLE IF NOT EXISTS datastore (\n" ++
  "\t\t\t\t\t\tkey TEXT NOT NULL,\n" ++
  "\t\t\t\t\t\tdata BYTEA,\n" ++
  "\t\t\t\t\t\tPRIMARY KEY ( key )\n" ++
  "\t\t\t\t\t)"

/-- Model of `DB.Migration`. -/
def Migration : migrate.Migration :=
  { Table := "versions",
    Steps := [
      { Description := "Initial setup",
        Version := 0,
        Action := [createBlocks, createDatastore] } ] }

/-! ### Reading a `CREATE TABLE` statement

A small reader for the statements above, used to state what they declare. -/

/-- A column as a `CREATE TABLE` statement declares it. -/
structure Column where
  name : String
  type : String
  notNull : Bool
  default : Option String
  deriving DecidableEq, Repr

/-- What a `CREATE TABLE` statement declares. -/
structure TableDecl where
  ifNotExists : Bool
  name : String
  columns : List Column
  primaryKey : List String
  deriving DecidableEq, Repr

/-- Close the word being collected, if any. -/
def flushWord (cur : List Char) : List String :=
  if cur = [] then [] else [String.mk cur]

/-- Words of a statement: maximal runs of characters other than blanks, with `(`, `)`
and `,` as words of their own. -/
def sqlWords : List Char → List Char → List String
  | [], cur => flushWord cur
  | c :: cs, cur =>
    if c = ' ' ∨ c = '\t' ∨ c = '\n' ∨ c = '\r' then flushWord cur ++ sqlWords cs []
    else if c = '(' ∨ c = ')' ∨ c = ',' then
      flushWord cur ++ [String.singleton c] ++ sqlWords cs []
    else sqlWords cs (cur ++ [c])

/-- Split the words between the outer parentheses at the commas of nesting depth 0. -/
def splitItems : List String → Nat → List String → List (List String)
  | [], _, cur => if cur = [] then [] else [cur]
  | w :: ws, depth, cur =>
    if w = "(" then splitItems ws (depth + 1) (cur ++ [w])
    else if w = ")" then splitItems ws (depth - 1) (cur ++ [w])
    else if w = "," ∧ depth = 0 then cur :: splitItems ws 0 []
    else splitItems ws depth (cur ++ [w])

/-- An optional `NOT NULL`. -/
def readNotNull : List String → Bool × List String
  | "NOT" :: "NULL" :: rest => (true, rest)
  | rest => (false, rest)

/-- An optional `DEFAULT value`, the value being a word or a call without arguments. -/
def readDefault : List String → Option String × List String
  | "DEFAULT" :: v :: "(" :: ")" :: rest => (some (v ++ "()"), rest)
  | "DEFAULT" :: v :: rest => (some v, rest)
  | rest => (none, rest)

/-- A column item `name type [NOT NULL] [DEFAULT value]`. -/
def readColumn : List String → Option Column
  | name :: type :: rest =>
    let (nn, r1) := readNotNull rest
    let (d, r2) := readDefault r1
    if r2 = [] then some { name := name, type := type, notNull := nn, default := d } else none
  | _ => none

/-- The items of a table body: columns, and `PRIMARY KEY ( cols )` items. -/
def readItems : List (List String) → Option (List Column × List String)
  | [] => some ([], [])
  | ("PRIMARY" :: "KEY" :: "(" :: cols) :: items =>
    match readItems items with
    | some (cs, pk) => some (cs, (cols.dropLast.filter (fun w => w ≠ ",")) ++ pk)
    | none => none
  | item :: items =>
    match readColumn item, readItems items with
    | some c, some (cs, pk) => some (c :: cs, pk)
    | _, _ => none

/-- Read `CREATE TABLE [IF NOT EXISTS] name ( items )`. -/
def readCreateTable (stmt : String) : Option TableDecl :=
  match sqlWords stmt.data [] with
  | "CREATE" :: "TABLE" :: "IF" :: "NOT" :: "EXISTS" :: name :: "(" :: body =>
    if body.getLast? = some ")" then
      match readItems (splitItems body.dropLast 0 []) with
      | some (cs, pk) => some { ifNotExists := true, name := name, columns := cs, primaryKey := pk }
      | none => none
    else none
  | "CREATE" :: "TABLE" :: name :: "(" :: body =>
    if body.getLast? = some ")" then
      match readItems (splitItems body.dropLast 0 []) with
      | some (cs, pk) => some { ifNotExists := false, name := name, columns := cs, primaryKey := pk }
      | none => none
    else none
  | _ => none

/-! ### `Open` -/

/-- The backends `dbutil.SplitConnStr` can report.  `Open` tells `dbutil.Postgres` and
`dbutil.Cockroach` apart from every other value of `dbutil.Implementation`. -/
inductive dbutil.Implementation where
  | Postgres
  | Cockroach
  | other (code : Nat)
  deriving DecidableEq, Repr

/-- An error value: its message and the `errs` classes it belongs to. -/
structure GoError where
  classes : List String
  message : String
  deriving DecidableEq, Repr

/-- The error class `Error = errs.Class("db")`, given by its name. -/
def Error : String := "db"

/-- Model of `Error.New(format, args...)`: a new error of class `db`. -/
def Error.New (message : String) : GoError :=
  { classes := [Error], message := message }

/-- Model of `Error.Wrap(err)` for a non-nil `err`: an error whose outermost class is
already `db` is returned unchanged, any other error is wrapped into class `db`
(`classes` lists the classes from the outermost wrapper inwards). -/
def Error.Wrap (err : GoError) : GoError :=
  if err.classes.head? = some Error then err
  else { classes := Error :: err.classes, message := err.message }

/-- What a call of `Open` yields: the returned handle (`none` is `nil`), the returned
error (`none` is `nil`), and the calls of `tagsql.Open` it made, as pairs of driver
name and data source. -/
structure OpenResult (H : Type) where
  db : Option H
  err : Option GoError
  opened : List (String × String)

/-- Model of `Open`.  `SplitConnStr` stands for `dbutil.SplitConnStr` (source, driver
and implementation on success) and `tagsqlOpen` for `tagsql.Open`; the returned handle
is what `Wrap` is given. -/
def Open {H : Type} (SplitConnStr : String → Except GoError (String × String × dbutil.Implementation))
    (tagsqlOpen : String → String → Except GoError H) (databaseURL : String) : OpenResult H :=
  match SplitConnStr databaseURL with
  | .error err => { db := none, err := some (Error.Wrap err), opened := [] }
  | .ok (_, _, impl) =>
    let driverName : String := ""
    let connect (driverName : String) : OpenResult H :=
      match tagsqlOpen driverName databaseURL with
      | .error err =>
        { db := none, err := some (Error.Wrap err), opened := [(driverName, databaseURL)] }
      | .ok tagdb => { db := some tagdb, err := none, opened := [(driverName, databaseURL)] }
    match impl with
    | .Postgres => connect "pgx"
    | .Cockroach => connect "cockroach"
    | .other _ =>
      { db := none,
        err := some (Error.New ("unsupported implementation: " ++ driverName)),
        opened := [] }

/-- A connection-string splitter for the examples: three known strings, one per kind
of backend. -/
def sampleSplitConnStr (s : String) : Except GoError (String × String × dbutil.Implementation) :=
  if s = "postgres://host/db" then .ok ("host/db", "postgres", .Postgres)
  else if s = "cockroach://host/db" then .ok ("host/db", "cockroach", .Cockroach)
  else if s = "sqlite3://file.db" then .ok ("file.db", "sqlite3", .other 5)
  else .error { classes := [], message := "could not parse connection string" }

/-- A connection opener for the examples: the handle records driver and data source. -/
def sampleTagsqlOpen (driverName dataSource : String) : Except GoError (String × String) :=
  .ok (driverName, dataSource)

/-- A connection opener for the examples that refuses every connection. -/
def sampleTagsqlRefuse (_driverName _dataSource : String) :
    Except GoError (String × String) :=
  .error { classes := [], message := "connection refused" }

end db
namespace pack

/-! ## The pack pipeline

The packer, the block repository and the pack builder are not among the source files;
only `pack_test.go` is.  They are modelled here from the specification, with
`TestPack` fixing the reading where the text leaves a choice.  Byte strings (CIDs,
payloads, object names, blobs) are lists of byte values. -/

/-- Modelled from the spec: the wire value of pack status `Unpacked` (the status enum of
package `pack` is missing; section 6 lists `0 = Unpacked`, `1 = Packing`, `2 = Packed`). -/
abbrev Unpacked : Nat := 0

/-- Modelled from the spec: the wire value of pack status `Packing` (section 6). -/
abbrev Packing : Nat := 1

/-- Modelled from the spec: the wire value of pack status `Packed` (section 6). -/
abbrev Packed : Nat := 2

/-- Modelled from the spec: a row of table `blocks` (the generated `dbx.Block` is
missing; section 3 and the schema of `DB.Migration` list the fields).  `data = none` is
a null `data` column; `created` is a logical timestamp. -/
structure Block where
  cid : List Nat
  size : Nat
  created : Nat
  data : Option (List Nat)
  deleted : Bool
  pack_object : List Nat
  pack_offset : Nat
  pack_status : Nat
  deriving DecidableEq, Repr

/-- Modelled from the spec: the archive format of the pack builder (missing), section
4.3: a ZIP archive of stored entries.  The bytes around the payloads are left open:
`localHeader name payload` precedes the payload of an entry, `descriptor name payload`
follows it, and `directory entries` ends the archive. -/
structure ArchiveFormat where
  localHeader : List Nat → List Nat → List Nat
  descriptor : List Nat → List Nat → List Nat
  directory : List (List Nat × List Nat) → List Nat

/-- Modelled from the spec: the packer configuration (`storjds.Config` is missing;
`TestPack` sets `MinPackSize` and `MaxPackSize`), with the archive format in use. -/
structure Config where
  MinPackSize : Nat
  MaxPackSize : Nat
  format : ArchiveFormat

/-- Modelled from the spec: the metadata database and the object store (both missing
from the sources).  `rows` is table `blocks`, `objects` maps object names to blobs
(first match wins), `clock` is the next `created` timestamp, `packs` counts the pack
object names handed out. -/
structure State where
  rows : List Block
  objects : List (List Nat × List Nat)
  clock : Nat
  packs : Nat

/-- The freshly opened datastore: no rows, no objects. -/
def State.init : State := { rows := [], objects := [], clock := 0, packs := 0 }

/-- Model of `readRange` of `pack_test.go`: a download of `length` bytes from byte
`offset` of an object. -/
def readRange (object : List Nat) (offset length : Nat) : List Nat :=
  (object.drop offset).take length

/-- Modelled from the spec: the entries of the pack builder (missing), section 4.3.
Starting at byte position `pos`, every entry is written as header, payload, descriptor;
the offset recorded for its CID is the position of the first payload byte. -/
def writeEntries (fmt : ArchiveFormat) :
    Nat → List (List Nat × List Nat) → List Nat × List (List Nat × Nat)
  | _, [] => ([], [])
  | pos, (cid, data) :: es =>
    let header := fmt.localHeader cid data
    let trailer := fmt.descriptor cid data
    let next := writeEntries fmt (pos + header.length + data.length + trailer.length) es
    (header ++ data ++ trailer ++ next.1, (cid, pos + header.length) :: next.2)

/-- Modelled from the spec: the pack builder (missing), section 4.3: the blob and the map
from CID to payload offset. -/
def buildPack (fmt : ArchiveFormat) (entries : List (List Nat × List Nat)) :
    List Nat × List (List Nat × Nat) :=
  ((writeEntries fmt 0 entries).1 ++ fmt.directory entries, (writeEntries fmt 0 entries).2)

/-- Modelled from the spec: the name of the next pack object (the packer is missing),
section 4.4 step 4: a fresh unique identifier with a `.zip` suffix; here the decimal
number of the pack followed by `.zip`. -/
def packName (k : Nat) : List Nat := db.Itoa k ++ [46, 122, 105, 112]

/-- Modelled from the spec: the CID of a datastore key (the facade is missing), section
4.5: the key with the leading `/` stripped. -/
def cidOf : List Nat → List Nat
  | 47 :: rest => rest
  | key => key

/-- Modelled from the spec: `Insert` of the block repository (missing), section 4.2, as
the facade's `Put` uses it: a new row is Unpacked, holds the payload inline and takes
the schema defaults; a CID that already has a row leaves the table as it is. -/
def Put (key value : List Nat) (s : State) : State :=
  if cidOf key ∈ s.rows.map (fun b => b.cid) then s
  else
    { s with
      rows := s.rows ++ [{ cid := cidOf key, size := value.length, created := s.clock,
                           data := some value, deleted := false, pack_object := [],
                           pack_offset := 0, pack_status := Unpacked }],
      clock := s.clock + 1 }

/-- Modelled from the spec: `Delete` of the block repository (missing), section 4.2:
sets the tombstone flag of the row. -/
def Delete (key : List Nat) (s : State) : State :=
  { s with rows := s.rows.map (fun b => if b.cid = cidOf key then { b with deleted := true } else b) }

/-- Modelled from the spec: `ListUnpacked` of the block repository (missing), section
4.2: the rows that are not deleted and Unpacked, by ascending `created`. -/
def ListUnpacked (rows : List Block) : List Block :=
  (rows.filter (fun b => !b.deleted && b.pack_status == Unpacked)).insertionSort
    (fun a b => a.created ≤ b.created)

/-- Sum of the sizes of a batch of blocks. -/
def totalSize (bs : List Block) : Nat := (bs.map (fun b => b.size)).sum

/-- Modelled from the spec: the scan of the packer loop (missing), section 4.4 step 1:
blocks are accumulated in order; a block that alone exceeds `MaxPackSize` is skipped;
accumulation stops as soon as adding the next block would exceed `MaxPackSize`.
`sum` is the running sum of the sizes accumulated so far. -/
def scan (maxPackSize : Nat) : Nat → List Block → List Block
  | _, [] => []
  | sum, b :: bs =>
    if maxPackSize < b.size then scan maxPackSize sum bs
    else if maxPackSize < sum + b.size then []
    else b :: scan maxPackSize (sum + b.size) bs

/-- Modelled from the spec: `ClaimForPacking` of the block repository (missing), section
4.2: the listed rows that are Unpacked become Packing; the CIDs of the rows changed are
returned. -/
def ClaimForPacking (cids : List (List Nat)) (rows : List Block) :
    List Block × List (List Nat) :=
  (rows.map (fun b =>
      if b.cid ∈ cids ∧ b.pack_status = Unpacked then { b with pack_status := Packing }
      else b),
   (rows.filter (fun b => b.cid ∈ cids ∧ b.pack_status = Unpacked)).map (fun b => b.cid))

/-- Modelled from the spec: `AbortPacking` of the block repository (missing), section
4.2: the listed rows that are Packing return to Unpacked. -/
def AbortPacking (cids : List (List Nat)) (rows : List Block) : List Block :=
  rows.map (fun b =>
    if b.cid ∈ cids ∧ b.pack_status = Packing then { b with pack_status := Unpacked } else b)

/-- Modelled from the spec: `CommitPacked` of the block repository (missing), section
4.2: every listed row becomes Packed, loses its inline data and records pack object and
offset; when a listed row is not Packing the commit fails (`none`). -/
def CommitPacked (name : List Nat) (offsets : List (List Nat × Nat)) (rows : List Block) :
    Option (List Block) :=
  if rows.all (fun b => (offsets.lookup b.cid).isNone || b.pack_status == Packing) then
    some (rows.map (fun b =>
      match offsets.lookup b.cid with
      | some offset =>
        { b with pack_status := Packed, data := none, pack_object := name,
                 pack_offset := offset }
      | none => b))
  else none

/-- Failures that can be injected into a packer cycle: in the build, in the upload, or
in the commit (where the uploaded object is then deleted, unless that fails too). -/
inductive Fault where
  | none
  | build
  | upload
  | commit (objectDeleted : Bool)
  deriving DecidableEq, Repr

/-- Modelled from the spec: one cycle of the packer loop (missing), section 4.4: scan,
claim, build, name, upload, commit, with the abort paths of step 7.  A batch below
`MinPackSize` ends the cycle without any effect. -/
def cycle (cfg : Config) (fault : Fault) (s : State) : State :=
  let batch := scan cfg.MaxPackSize 0 (ListUnpacked s.rows)
  if totalSize batch < cfg.MinPackSize then s
  else
    let claim := ClaimForPacking (batch.map (fun b => b.cid)) s.rows
    let claimed := batch.filter (fun b => b.cid ∈ claim.2)
    let cids := claimed.map (fun b => b.cid)
    let built := buildPack cfg.format (claimed.map (fun b => (b.cid, b.data.getD [])))
    let name := packName s.packs
    match fault with
    | .build => { s with rows := AbortPacking cids claim.1 }
    | .upload => { s with rows := AbortPacking cids claim.1, packs := s.packs + 1 }
    | .commit objectDeleted =>
      { s with rows := AbortPacking cids claim.1,
               objects := if objectDeleted then s.objects else (name, built.1) :: s.objects,
               packs := s.packs + 1 }
    | .none =>
      match CommitPacked name built.2 claim.1 with
      | some rows =>
        { s with rows := rows, objects := (name, built.1) :: s.objects, packs := s.packs + 1 }
      | Option.none => { s with rows := AbortPacking cids claim.1, packs := s.packs + 1 }

/-- The batch the next cycle scans in state `s`. -/
def nextBatch (cfg : Config) (s : State) : List Block :=
  scan cfg.MaxPackSize 0 (ListUnpacked s.rows)

/-- The operations that change the datastore: `Put`, `Delete`, and a packer cycle. -/
inductive Op where
  | Put (key value : List Nat)
  | Delete (key : List Nat)
  | Tick (fault : Fault)
  deriving DecidableEq, Repr

/-- The state after one operation. -/
def step (cfg : Config) (s : State) : Op → State
  | .Put key value => Put key value s
  | .Delete key => Delete key s
  | .Tick fault => cycle cfg fault s

/-- The state after a sequence of operations on a fresh datastore. -/
def run (cfg : Config) (ops : List Op) : State := ops.foldl (step cfg) State.init

/-- The payload first passed to `Put` for a CID in a sequence of operations. -/
def firstPut (ops : List Op) (cid : List Nat) : Option (List Nat) :=
  (ops.filterMap (fun op =>
    match op with
    | .Put key value => if cidOf key = cid then some value else none
    | _ => none)).head?

/-- The unpacked, non-deleted rows in table order. -/
def unpackedRows (rows : List Block) : List Block :=
  rows.filter (fun b => !b.deleted && b.pack_status == Unpacked)

/-- What the metadata says of one row, given the payloads put so far (`log`) and the
object store: an Unpacked row has no pack location and holds its payload inline; a
Packed row has no inline data and names a pack object in which its payload lies at
`pack_offset`. -/
def RowOK (log : List Nat → Option (List Nat)) (objects : List (List Nat × List Nat))
    (b : Block) : Prop :=
  (b.pack_status = Unpacked ∧ b.pack_object = [] ∧ b.pack_offset = 0
    ∧ ∃ v, b.data = some v ∧ b.size = v.length ∧ log b.cid = some v)
  ∨ (b.pack_status = Packed ∧ b.pack_object ≠ [] ∧ b.data = none
    ∧ ∃ blob, objects.lookup b.pack_object = some blob
        ∧ log b.cid = some (readRange blob b.pack_offset b.size))

/-- The invariant of the datastore between operations. -/
structure Consistent (log : List Nat → Option (List Nat)) (s : State) : Prop where
  nodup : (s.rows.map (fun b => b.cid)).Nodup
  sorted : (s.rows.map (fun b => b.created)).Pairwise (fun x y => x ≤ y)
  clock : ∀ b ∈ s.rows, b.created < s.clock
  names : ∀ o ∈ s.objects, ∃ k, k < s.packs ∧ o.1 = packName k
  rows : ∀ b ∈ s.rows, RowOK log s.objects b
  fresh : ∀ c, c ∉ s.rows.map (fun b => b.cid) → log c = none

/-- The row a committed block is left with. -/
def packedRow (name : List Nat) (offsets : List (List Nat × Nat)) (b : Block) : Block :=
  { b with pack_status := Packed, data := none, pack_object := name,
           pack_offset := (offsets.lookup b.cid).getD 0 }

/-- The state after a run of packer cycles with the given faults. -/
def cycles (cfg : Config) (faults : List Fault) (s : State) : State :=
  faults.foldl (fun st fault => cycle cfg fault st) s

/-- An archive format for the examples: a 30-byte local header followed by the entry
name, no descriptor, and a 22-byte end record. -/
def sampleFormat : ArchiveFormat :=
  { localHeader := fun name _ => List.replicate 30 0 ++ name,
    descriptor := fun _ _ => [],
    directory := fun _ => List.replicate 22 0 }

/-- A small configuration for the examples: batches of 4 to 6 bytes. -/
def smallConfig : Config := { MinPackSize := 4, MaxPackSize := 6, format := sampleFormat }

/-- A short history for the examples: blocks `a` (3 bytes), `b` (2 bytes) and `c`
(4 bytes) are put, then the packer runs once and packs `a` and `b`. -/
def smallOps : List Op :=
  [Op.Put [47, 97] [1, 2, 3], Op.Put [47, 98] [4, 5], Op.Put [47, 99] [6, 7, 8, 9],
   Op.Tick Fault.none]

/-- The configuration of `TestPack`: `MinPackSize` 1 MiB, `MaxPackSize` 2 MiB. -/
def testConfig : Config :=
  { MinPackSize := 1 * 1048576, MaxPackSize := 2 * 1048576, format := sampleFormat }

/-- The keys of `TestPack`: `/block0` to `/block9`. -/
def testKey (i : Nat) : List Nat := db.bytes "/block" ++ db.Itoa i

/-- The CIDs of `TestPack`: `block0` to `block9`. -/
def testCid (i : Nat) : List Nat := db.bytes "block" ++ db.Itoa i

/-- A payload of 256 KiB, as the blobs of `TestPack` are (there random bytes). -/
def testBlob (i : Nat) : List Nat := List.replicate (256 * 1024) i

/-- The ten `Put` calls of `TestPack`. -/
def testPuts : List Op := (List.range 10).map (fun i => Op.Put (testKey i) (testBlob i))

/-- The row of block `i` after the ten `Put` calls of `TestPack`. -/
def testRow (i : Nat) : Block :=
  { cid := testCid i, size := 262144, created := i, data := some (testBlob i),
    deleted := false, pack_object := [], pack_offset := 0, pack_status := Unpacked }

/-- The state after the ten `Put` calls of `TestPack`. -/
def testState : State :=
  { rows := (List.range 10).map testRow, objects := [], clock := 10, packs := 0 }

end pack
namespace db
open sqlParseState

/-! ### Basic facts about the scanner loop -/

theorem rebindLoop_out (sql : List Nat) :
    ∀ (out : List Nat) (j : Nat) (st : sqlParseState),
      rebindLoop out j st sql = out ++ rebindLoop [] j st sql := by
  induction sql with
  | nil => intro out j st; simp [rebindLoop]
  | cons ch rest ih =>
    intro out j st
    cases st <;> simp only [rebindLoop] <;> split_ifs <;>
      (rw [ih]; conv_rhs => rw [ih]) <;> simp

theorem loop_start_qmark (j : Nat) (rest : List Nat) :
    rebindLoop [] j sqlParseStart (63 :: rest)
      = 36 :: (Itoa j ++ rebindLoop [] (j + 1) sqlParseStart rest) := by
  simp only [rebindLoop, if_true, List.nil_append]
  rw [rebindLoop_out]; simp

theorem loop_start_dash_comment (j : Nat) (rest : List Nat) (h : rest.head? = some 45) :
    rebindLoop [] j sqlParseStart (45 :: rest)
      = 45 :: rebindLoop [] j sqlParseInComment rest := by
  simp only [rebindLoop, if_pos h, if_true, List.nil_append]
  rw [if_neg (by decide), rebindLoop_out]; simp

theorem loop_start_dash_plain (j : Nat) (rest : List Nat) (h : rest.head? ≠ some 45) :
    rebindLoop [] j sqlParseStart (45 :: rest)
      = 45 :: rebindLoop [] j sqlParseStart rest := by
  simp only [rebindLoop, if_neg h, if_true, List.nil_append]
  rw [if_neg (by decide), rebindLoop_out]; simp

theorem loop_start_plain (j ch : Nat) (rest : List Nat)
    (h1 : ch ≠ 63) (h2 : ch ≠ 45) (h3 : ch ≠ 34) (h4 : ch ≠ 39) :
    rebindLoop [] j sqlParseStart (ch :: rest)
      = ch :: rebindLoop [] j sqlParseStart rest := by
  simp only [rebindLoop]
  rw [if_neg h1, if_neg h2, if_neg h3, if_neg h4, rebindLoop_out]; simp

theorem loop_start_dquote (j : Nat) (rest : List Nat) :
    rebindLoop [] j sqlParseStart (34 :: rest)
      = 34 :: rebindLoop [] j sqlParseInQuotedIdentifier rest := by
  simp only [rebindLoop, if_true, List.nil_append]
  rw [if_neg (by decide), if_neg (by decide), rebindLoop_out]; simp

theorem loop_start_squote (j : Nat) (rest : List Nat) :
    rebindLoop [] j sqlParseStart (39 :: rest)
      = 39 :: rebindLoop [] j sqlParseInStringLiteral rest := by
  simp only [rebindLoop, if_true, List.nil_append]
  rw [if_neg (by decide), if_neg (by decide), if_neg (by decide), rebindLoop_out]
  simp

theorem loop_string (j ch : Nat) (rest : List Nat) :
    rebindLoop [] j sqlParseInStringLiteral (ch :: rest)
      = ch :: rebindLoop [] j (if ch = 39 then sqlParseStart else sqlParseInStringLiteral) rest := by
  simp only [rebindLoop]
  split_ifs <;> (rw [rebindLoop_out]; simp)

theorem loop_ident (j ch : Nat) (rest : List Nat) :
    rebindLoop [] j sqlParseInQuotedIdentifier (ch :: rest)
      = ch :: rebindLoop [] j
          (if ch = 34 then sqlParseStart else sqlParseInQuotedIdentifier) rest := by
  simp only [rebindLoop]
  split_ifs <;> (rw [rebindLoop_out]; simp)

theorem loop_comment (j ch : Nat) (rest : List Nat) :
    rebindLoop [] j sqlParseInComment (ch :: rest)
      = ch :: rebindLoop [] j (if ch = 10 then sqlParseStart else sqlParseInComment) rest := by
  simp only [rebindLoop]
  split_ifs <;> (rw [rebindLoop_out]; simp)

theorem loop_inside_cons (st : sqlParseState) (hst : st ≠ sqlParseStart) (j ch : Nat)
    (rest : List Nat) :
    rebindLoop [] j st (ch :: rest)
      = ch :: rebindLoop [] j (if ch = closer st then sqlParseStart else st) rest := by
  cases st with
  | sqlParseStart => exact absurd rfl hst
  | sqlParseInStringLiteral => exact loop_string j ch rest
  | sqlParseInQuotedIdentifier => exact loop_ident j ch rest
  | sqlParseInComment => exact loop_comment j ch rest

/-- A run of bytes without the closing byte is copied and leaves the state as it is. -/
theorem loop_inside_run (st : sqlParseState) (hst : st ≠ sqlParseStart) (j : Nat)
    (s t : List Nat) (hs : closer st ∉ s) :
    rebindLoop [] j st (s ++ t) = s ++ rebindLoop [] j st t := by
  induction s with
  | nil => simp
  | cons c s ih =>
    have hc : c ≠ closer st := fun h => hs (by simp [h])
    have hs2 : closer st ∉ s := fun h => hs (List.mem_cons_of_mem _ h)
    rw [List.cons_append, loop_inside_cons st hst, if_neg hc, ih hs2]; simp

/-- Without a `?` nothing is rewritten, in any state. -/
theorem loop_no_qmark (sql : List Nat) (h : 63 ∉ sql) :
    ∀ (j : Nat) (st : sqlParseState), rebindLoop [] j st sql = sql := by
  induction sql with
  | nil => intro j st; simp [rebindLoop]
  | cons ch rest ih =>
    intro j st
    have hc : ch ≠ 63 := fun e => h (by simp [e])
    have hr : 63 ∉ rest := fun e => h (List.mem_cons_of_mem _ e)
    cases st <;> simp only [rebindLoop, if_neg hc] <;> split_ifs <;>
      (rw [rebindLoop_out, ih hr]; simp)

/-! ### `Itoa` produces the decimal digits -/

theorem decimal_of_lt_ten (n : Nat) (h : n < 10) : decimal n = [48 + n] := by
  unfold decimal
  by_cases h0 : n = 0
  · simp [h0]
  · rw [if_neg h0, Nat.digits_of_lt 10 n h0 h]; simp

theorem decimal_of_ten_le (n : Nat) (h : 10 ≤ n) :
    decimal n = decimal (n / 10) ++ [48 + n % 10] := by
  have h0 : n ≠ 0 := by omega
  have h1 : n / 10 ≠ 0 := by omega
  unfold decimal
  rw [if_neg h0, if_neg h1, Nat.digits_def' (by decide) (by omega)]
  simp

theorem itoaAux_eq (fuel : Nat) :
    ∀ (n : Nat) (acc : List Nat), n < fuel → itoaAux fuel n acc = decimal n ++ acc := by
  induction fuel with
  | zero => intro n acc h; omega
  | succ f ih =>
    intro n acc h
    simp only [itoaAux]
    by_cases hn : n < 10
    · rw [if_pos hn, decimal_of_lt_ten n hn]; simp
    · rw [if_neg hn, ih (n / 10) _ (by omega), decimal_of_ten_le n (by omega)]; simp

theorem Itoa_eq_decimal (j : Nat) : Itoa j = decimal j := by
  unfold Itoa
  rw [itoaAux_eq (j + 1) j [] (by omega)]; simp

theorem decimal_digit (k d : Nat) (h : d ∈ decimal k) : 48 ≤ d ∧ d ≤ 57 := by
  unfold decimal at h
  by_cases h0 : k = 0
  · rw [if_pos h0] at h; simp at h; omega
  · rw [if_neg h0] at h
    simp only [List.mem_map, List.mem_reverse] at h
    obtain ⟨x, hx, rfl⟩ := h
    have := Nat.digits_lt_base (by decide : 1 < 10) hx
    omega

theorem Itoa_digit (j d : Nat) (h : d ∈ Itoa j) : 48 ≤ d ∧ d ≤ 57 :=
  decimal_digit j d (Itoa_eq_decimal j ▸ h)

/-- A run of digits is copied in `sqlParseStart` and does not change the state. -/
theorem loop_start_digits (j : Nat) (ds t : List Nat) (h : ∀ d ∈ ds, 48 ≤ d ∧ d ≤ 57) :
    rebindLoop [] j sqlParseStart (ds ++ t) = ds ++ rebindLoop [] j sqlParseStart t := by
  induction ds with
  | nil => simp
  | cons d ds ih =>
    have hd := h d (by simp)
    rw [List.cons_append, loop_start_plain j d _ (by omega) (by omega) (by omega) (by omega),
      ih (fun x hx => h x (List.mem_cons_of_mem _ hx))]
    simp

/-! ### Clean prefixes: no quote, no double quote, no `--` -/

theorem no_dashdash_tail (c : Nat) (a : List Nat) (h : ¬ [45, 45] <:+: c :: a) :
    ¬ [45, 45] <:+: a := fun hi => h (List.infix_cons hi)

theorem no_dashdash_head (a : List Nat) (h : ¬ [45, 45] <:+: 45 :: a) :
    a.head? ≠ some 45 := by
  intro hh
  cases a with
  | nil => simp at hh
  | cons b a =>
    simp at hh
    subst hh
    exact h ⟨[], a, rfl⟩

/-- Over a clean prefix the scanner stays in `sqlParseStart` and numbers every `?`,
provided the byte following the prefix does not complete a `--`. -/
theorem loop_clean_start (a : List Nat) :
    ∀ (j : Nat) (t : List Nat), 39 ∉ a → 34 ∉ a → ¬ [45, 45] <:+: a →
      (a.getLast? = some 45 → t.head? ≠ some 45) →
      rebindLoop [] j sqlParseStart (a ++ t)
        = numberPlaceholders j a ++ rebindLoop [] (j + a.count 63) sqlParseStart t := by
  induction a with
  | nil => intro j t _ _ _ _; simp [numberPlaceholders]
  | cons c a ih =>
    intro j t h1 h2 h3 h4
    have h1c : c ≠ 39 := fun e => h1 (by simp [e])
    have h2c : c ≠ 34 := fun e => h2 (by simp [e])
    have h1a : 39 ∉ a := fun e => h1 (List.mem_cons_of_mem _ e)
    have h2a : 34 ∉ a := fun e => h2 (List.mem_cons_of_mem _ e)
    have h3a := no_dashdash_tail c a h3
    have h4a : a.getLast? = some 45 → t.head? ≠ some 45 := by
      intro hl
      apply h4
      cases a with
      | nil => simp at hl
      | cons b a => simpa [List.getLast?_cons_cons] using hl
    rw [List.cons_append]
    by_cases hq : c = 63
    · subst hq
      rw [loop_start_qmark, ih (j + 1) t h1a h2a h3a h4a, Itoa_eq_decimal, List.count_cons_self,
        show j + 1 + List.count 63 a = j + (List.count 63 a + 1) by omega]
      simp [numberPlaceholders]
    · by_cases hd : c = 45
      · subst hd
        have hnext : (a ++ t).head? ≠ some 45 := by
          cases a with
          | nil => simpa using h4 (by simp)
          | cons b a => simpa using no_dashdash_head _ h3
        rw [loop_start_dash_plain j _ hnext, ih j t h1a h2a h3a h4a]
        simp [numberPlaceholders]
      · have hcnt : List.count 63 (c :: a) = List.count 63 a := by
          simp [List.count_cons, hq]
        rw [loop_start_plain j c _ hq hd h2c h1c, ih j t h1a h2a h3a h4a, hcnt]
        simp [numberPlaceholders, hq]

theorem Rebind_clean (a : List Nat) (h1 : 39 ∉ a) (h2 : 34 ∉ a) (h3 : ¬ [45, 45] <:+: a) :
    Rebind a = numberPlaceholders 1 a := by
  have := loop_clean_start a 1 [] h1 h2 h3 (by simp)
  simpa [Rebind, rebindLoop] using this

/-- A clean prefix followed by `--`: the comment may be entered one byte early when the
prefix ends in `-`, the output is the same. -/
theorem loop_clean_then_comment (a : List Nat) :
    ∀ (j : Nat) (t : List Nat), 39 ∉ a → 34 ∉ a → ¬ [45, 45] <:+: a →
      rebindLoop [] j sqlParseStart (a ++ 45 :: 45 :: t)
        = numberPlaceholders j a ++ 45 :: 45 :: rebindLoop [] (j + a.count 63) sqlParseInComment t := by
  induction a with
  | nil =>
    intro j t _ _ _
    rw [List.nil_append, loop_start_dash_comment j _ (by simp), loop_comment,
      if_neg (by decide)]
    simp [numberPlaceholders]
  | cons c a ih =>
    intro j t h1 h2 h3
    have h1c : c ≠ 39 := fun e => h1 (by simp [e])
    have h2c : c ≠ 34 := fun e => h2 (by simp [e])
    have h1a : 39 ∉ a := fun e => h1 (List.mem_cons_of_mem _ e)
    have h2a : 34 ∉ a := fun e => h2 (List.mem_cons_of_mem _ e)
    have h3a := no_dashdash_tail c a h3
    rw [List.cons_append]
    by_cases hq : c = 63
    · subst hq
      rw [loop_start_qmark, ih (j + 1) t h1a h2a h3a, Itoa_eq_decimal, List.count_cons_self,
        show j + 1 + List.count 63 a = j + (List.count 63 a + 1) by omega]
      simp [numberPlaceholders]
    · by_cases hd : c = 45
      · subst hd
        cases a with
        | nil =>
          rw [List.nil_append, loop_start_dash_comment j _ (by simp), loop_comment,
            if_neg (by decide), loop_comment, if_neg (by decide)]
          simp [numberPlaceholders]
        | cons b a =>
          have hnext : ((b :: a) ++ 45 :: 45 :: t).head? ≠ some 45 := by
            simpa using no_dashdash_head _ h3
          rw [loop_start_dash_plain j _ hnext, ih j t h1a h2a h3a]
          simp [numberPlaceholders]
      · have hcnt : List.count 63 (c :: a) = List.count 63 a := by
          simp [List.count_cons, hq]
        rw [loop_start_plain j c _ hq hd h2c h1c, ih j t h1a h2a h3a, hcnt]
        simp [numberPlaceholders, hq]

theorem loop_head_dash (st : sqlParseState) (j : Nat) (l : List Nat) :
    (rebindLoop [] j st l).head? = some 45 ↔ l.head? = some 45 := by
  cases l with
  | nil => simp [rebindLoop]
  | cons c l =>
    by_cases hst : st = sqlParseStart
    · subst hst
      by_cases hq : c = 63
      · subst hq; rw [loop_start_qmark]; simp
      · by_cases hd : c = 45
        · subst hd
          by_cases hn : l.head? = some 45
          · rw [loop_start_dash_comment j l hn]; simp
          · rw [loop_start_dash_plain j l hn]; simp
        · by_cases h34 : c = 34
          · subst h34; rw [loop_start_dquote]; simp
          · by_cases h39 : c = 39
            · subst h39; rw [loop_start_squote]; simp
            · rw [loop_start_plain j c l hq hd h34 h39]; simp
    · rw [loop_inside_cons st hst]; simp

/-- A second pass over the output of the scanner changes nothing, whatever the state
and the placeholder counters. -/
theorem loop_idem (l : List Nat) :
    ∀ (st : sqlParseState) (j k : Nat),
      rebindLoop [] k st (rebindLoop [] j st l) = rebindLoop [] j st l := by
  induction l with
  | nil => intro st j k; simp [rebindLoop]
  | cons c l ih =>
    intro st j k
    by_cases hst : st = sqlParseStart
    · subst hst
      by_cases hq : c = 63
      · subst hq
        rw [loop_start_qmark,
          loop_start_plain k 36 _ (by decide) (by decide) (by decide) (by decide),
          loop_start_digits k (Itoa j) _ (Itoa_digit j), ih]
      · by_cases hd : c = 45
        · subst hd
          by_cases hn : l.head? = some 45
          · rw [loop_start_dash_comment j l hn,
              loop_start_dash_comment k _ ((loop_head_dash _ _ _).2 hn), ih]
          · rw [loop_start_dash_plain j l hn,
              loop_start_dash_plain k _ (fun h => hn ((loop_head_dash _ _ _).1 h)), ih]
        · by_cases h34 : c = 34
          · subst h34; rw [loop_start_dquote, loop_start_dquote, ih]
          · by_cases h39 : c = 39
            · subst h39; rw [loop_start_squote, loop_start_squote, ih]
            · rw [loop_start_plain j c l hq hd h34 h39, loop_start_plain k c _ hq hd h34 h39, ih]
    · rw [loop_inside_cons st hst, loop_inside_cons st hst, ih]

/-- **C1.** On SQL text without single quote, double quote and `--`, `Rebind` replaces
the k-th `?` (counting from 1) by `$` and the decimal digits of k and keeps every other
byte in place and in order. -/
theorem Rebind_numbers_placeholders (sql : List Nat)
    (h1 : 39 ∉ sql) (h2 : 34 ∉ sql) (h3 : ¬ [45, 45] <:+: sql) :
    Rebind sql = numberPlaceholders 1 sql :=
  Rebind_clean sql h1 h2 h3

/-- Witness for C1: `a=? AND b=?` becomes `a=$1 AND b=$2`, and in a run of ten `?` the
tenth becomes `$10`. -/
theorem Rebind_numbers_placeholders_witness :
    (39 ∉ bytes "a=? AND b=?" ∧ 34 ∉ bytes "a=? AND b=?" ∧ ¬ [45, 45] <:+: bytes "a=? AND b=?")
    ∧ Rebind (bytes "a=? AND b=?") = numberPlaceholders 1 (bytes "a=? AND b=?")
    ∧ numberPlaceholders 1 (bytes "a=? AND b=?") = bytes "a=$1 AND b=$2"
    ∧ numberPlaceholders 1 (bytes "??????????") = bytes "$1$2$3$4$5$6$7$8$9$10" :=
  ⟨⟨by decide, by decide, by decide⟩,
   Rebind_numbers_placeholders _ (by decide) (by decide) (by decide),
   (Rebind_numbers_placeholders _ (by decide) (by decide) (by decide)).symm.trans (by decide),
   (Rebind_numbers_placeholders _ (by decide) (by decide) (by decide)).symm.trans (by decide)⟩

/-- **C2.** A quoted part (single or double quote) after a clean prefix is copied
unchanged, its `?` consume no placeholder number, and rebinding resumes after the
closing quote with the number following those used in the prefix. -/
theorem Rebind_skips_quoted (q : Nat) (a s b : List Nat) (hq : q = 39 ∨ q = 34)
    (h1 : 39 ∉ a) (h2 : 34 ∉ a) (h3 : ¬ [45, 45] <:+: a) (hs : q ∉ s) :
    Rebind (a ++ [q] ++ s ++ [q] ++ b)
      = Rebind a ++ [q] ++ s ++ [q] ++ rebindFrom (a.count 63 + 1) b := by
  have hq45 : q ≠ 45 := by rcases hq with h | h <;> omega
  have e : a ++ [q] ++ s ++ [q] ++ b = a ++ (q :: (s ++ q :: b)) := by simp
  rw [e, Rebind_clean a h1 h2 h3]
  unfold Rebind rebindFrom
  rw [loop_clean_start a 1 _ h1 h2 h3 (by intro _; simpa using hq45), Nat.add_comm 1]
  rcases hq with h | h
  · subst h
    rw [loop_start_squote, loop_inside_run sqlParseInStringLiteral (by decide) _ s _ hs,
      loop_string, if_pos rfl]
    simp
  · subst h
    rw [loop_start_dquote, loop_inside_run sqlParseInQuotedIdentifier (by decide) _ s _ hs,
      loop_ident, if_pos rfl]
    simp

/-- Witness for C2: `? '?' ?` becomes `$1 '?' $2`. -/
theorem Rebind_skips_quoted_witness :
    (39 = 39 ∨ 39 = 34) ∧ 39 ∉ bytes "? " ∧ 34 ∉ bytes "? " ∧ ¬ [45, 45] <:+: bytes "? "
    ∧ 39 ∉ bytes "?"
    ∧ Rebind (bytes "? " ++ [39] ++ bytes "?" ++ [39] ++ bytes " ?")
        = Rebind (bytes "? ") ++ [39] ++ bytes "?" ++ [39]
            ++ rebindFrom ((bytes "? ").count 63 + 1) (bytes " ?")
    ∧ Rebind (bytes "? ") ++ [39] ++ bytes "?" ++ [39]
            ++ rebindFrom ((bytes "? ").count 63 + 1) (bytes " ?") = bytes "$1 '?' $2" :=
  ⟨by decide, by decide, by decide, by decide, by decide,
   Rebind_skips_quoted 39 (bytes "? ") (bytes "?") (bytes " ?") (by decide) (by decide)
     (by decide) (by decide) (by decide),
   by decide⟩

/-- **C3.** After a clean prefix, everything between `--` and the next newline (or the
end of the input) is copied unchanged and consumes no placeholder number; rebinding
resumes after the newline. -/
theorem Rebind_skips_line_comment (a c b : List Nat)
    (h1 : 39 ∉ a) (h2 : 34 ∉ a) (h3 : ¬ [45, 45] <:+: a) (hc : 10 ∉ c) :
    Rebind (a ++ [45, 45] ++ c ++ [10] ++ b)
        = Rebind a ++ [45, 45] ++ c ++ [10] ++ rebindFrom (a.count 63 + 1) b
    ∧ Rebind (a ++ [45, 45] ++ c) = Rebind a ++ [45, 45] ++ c := by
  have e1 : a ++ [45, 45] ++ c ++ [10] ++ b = a ++ 45 :: 45 :: (c ++ 10 :: b) := by simp
  have e2 : a ++ [45, 45] ++ c = a ++ 45 :: 45 :: (c ++ []) := by simp
  rw [e1, e2, Rebind_clean a h1 h2 h3]
  unfold Rebind rebindFrom
  rw [loop_clean_then_comment a 1 _ h1 h2 h3, loop_clean_then_comment a 1 _ h1 h2 h3,
    loop_inside_run sqlParseInComment (by decide) _ c _ hc,
    loop_inside_run sqlParseInComment (by decide) _ c _ hc, loop_comment, if_pos rfl,
    Nat.add_comm 1]
  simp [rebindLoop]

/-- Witness for C3: a `?` in a line comment is kept, the one after the newline gets the
next number. -/
theorem Rebind_skips_line_comment_witness :
    (39 ∉ bytes "a=? " ∧ 34 ∉ bytes "a=? " ∧ ¬ [45, 45] <:+: bytes "a=? " ∧ 10 ∉ bytes " why?")
    ∧ (Rebind (bytes "a=? " ++ [45, 45] ++ bytes " why?" ++ [10] ++ bytes "AND b=?")
          = Rebind (bytes "a=? ") ++ [45, 45] ++ bytes " why?" ++ [10]
              ++ rebindFrom ((bytes "a=? ").count 63 + 1) (bytes "AND b=?")
        ∧ Rebind (bytes "a=? " ++ [45, 45] ++ bytes " why?")
          = Rebind (bytes "a=? ") ++ [45, 45] ++ bytes " why?")
    ∧ Rebind (bytes "a=? -- why?\nAND b=?") = bytes "a=$1 -- why?\nAND b=$2"
    ∧ Rebind (bytes "a=? -- why?") = bytes "a=$1 -- why?" :=
  ⟨⟨by decide, by decide, by decide, by decide⟩,
   Rebind_skips_line_comment (bytes "a=? ") (bytes " why?") (bytes "AND b=?")
      (by decide) (by decide) (by decide) (by decide),
   by decide, by decide⟩

/-- **C9.** `Rebind` is idempotent. -/
theorem Rebind_idempotent (s : List Nat) : Rebind (Rebind s) = Rebind s :=
  loop_idem s sqlParseStart 1 1

/-- **C10.** A string without `?` passes through `Rebind` unchanged, whatever quotes,
dashes or newlines it contains. -/
theorem Rebind_without_placeholder (s : List Nat) (h : 63 ∉ s) : Rebind s = s :=
  loop_no_qmark s h 1 sqlParseState.sqlParseStart

set_option maxRecDepth 100000 in
/-- Witness for C10: the two `CREATE TABLE` statements of the migration step contain no
`?` and pass through `Rebind` unchanged. -/
theorem Rebind_without_placeholder_witness :
    (63 ∉ bytes createBlocks ∧ Rebind (bytes createBlocks) = bytes createBlocks)
    ∧ (63 ∉ bytes createDatastore ∧ Rebind (bytes createDatastore) = bytes createDatastore)
    ∧ Migration.Steps.map (fun st => st.Action) = [[createBlocks, createDatastore]] :=
  ⟨⟨by decide, Rebind_without_placeholder _ (by decide)⟩,
   ⟨by decide, Rebind_without_placeholder _ (by decide)⟩,
   by decide⟩

set_option maxRecDepth 100000 in
/-- **C8.** `DB.Migration` tracks versions in table `versions` and has exactly one step,
of version 0, whose action is two `CREATE TABLE IF NOT EXISTS` statements: `blocks` with
the eight columns of the schema and primary key `cid`, and `datastore` with columns
`key` (primary key) and `data`. -/
theorem Migration_schema :
    Migration.Table = "versions"
    ∧ Migration.Steps.length = 1
    ∧ Migration.Steps.map (fun st => st.Version) = [0]
    ∧ Migration.Steps.map (fun st => st.Action.length) = [2]
    ∧ Migration.Steps.map (fun st => st.Action.map readCreateTable) =
        [[some
            { ifNotExists := true, name := "blocks",
              columns := [
                { name := "cid", type := "TEXT", notNull := true, default := none },
                { name := "size", type := "INTEGER", notNull := true, default := none },
                { name := "created", type := "TIMESTAMP", notNull := true,
                  default := some "NOW()" },
                { name := "data", type := "BYTEA", notNull := false, default := none },
                { name := "deleted", type := "BOOLEAN", notNull := true,
                  default := some "false" },
                { name := "pack_object", type := "TEXT", notNull := true,
                  default := some "''" },
                { name := "pack_offset", type := "INTEGER", notNull := true,
                  default := some "0" },
                { name := "pack_status", type := "INTEGER", notNull := true,
                  default := some "0" } ],
              primaryKey := ["cid"] },
          some
            { ifNotExists := true, name := "datastore",
              columns := [
                { name := "key", type := "TEXT", notNull := true, default := none },
                { name := "data", type := "BYTEA", notNull := false, default := none } ],
              primaryKey := ["key"] }]] := by
  refine ⟨rfl, rfl, rfl, rfl, ?_⟩
  decide

theorem Wrap_class (err : GoError) : Error ∈ (Error.Wrap err).classes := by
  unfold Error.Wrap
  by_cases h : err.classes.head? = some Error
  · rw [if_pos h]
    exact List.mem_of_mem_head? h
  · rw [if_neg h]
    exact List.mem_cons_self _ _

/-- **C6.** When `dbutil.SplitConnStr` succeeds, `Open` accepts exactly Postgres and
Cockroach.  For Postgres it makes one call of `tagsql.Open`, with driver `pgx` and the
connection string, and returns what that call gives: the handle and a nil error, or no
handle and the error wrapped into class `db`; for Cockroach the same with driver
`cockroach`.  For every other implementation it returns no handle and an error of class
`db`, and makes no call of `tagsql.Open`.  So a handle is returned only for the two. -/
theorem Open_accepts_two_backends {H : Type}
    (SplitConnStr : String → Except GoError (String × String × dbutil.Implementation))
    (tagsqlOpen : String → String → Except GoError H) (databaseURL source driver : String)
    (impl : dbutil.Implementation) (h : SplitConnStr databaseURL = .ok (source, driver, impl)) :
    (match impl with
      | .Postgres =>
        (Open SplitConnStr tagsqlOpen databaseURL).opened = [("pgx", databaseURL)]
        ∧ (∀ tagdb, tagsqlOpen "pgx" databaseURL = .ok tagdb →
            (Open SplitConnStr tagsqlOpen databaseURL).db = some tagdb
            ∧ (Open SplitConnStr tagsqlOpen databaseURL).err = none)
        ∧ (∀ e, tagsqlOpen "pgx" databaseURL = .error e →
            (Open SplitConnStr tagsqlOpen databaseURL).db = none
            ∧ (Open SplitConnStr tagsqlOpen databaseURL).err = some (Error.Wrap e)
            ∧ Error ∈ (Error.Wrap e).classes)
      | .Cockroach =>
        (Open SplitConnStr tagsqlOpen databaseURL).opened = [("cockroach", databaseURL)]
        ∧ (∀ tagdb, tagsqlOpen "cockroach" databaseURL = .ok tagdb →
            (Open SplitConnStr tagsqlOpen databaseURL).db = some tagdb
            ∧ (Open SplitConnStr tagsqlOpen databaseURL).err = none)
        ∧ (∀ e, tagsqlOpen "cockroach" databaseURL = .error e →
            (Open SplitConnStr tagsqlOpen databaseURL).db = none
            ∧ (Open SplitConnStr tagsqlOpen databaseURL).err = some (Error.Wrap e)
            ∧ Error ∈ (Error.Wrap e).classes)
      | .other _ =>
        (Open SplitConnStr tagsqlOpen databaseURL).db = none
        ∧ (∃ e, (Open SplitConnStr tagsqlOpen databaseURL).err = some e ∧ Error ∈ e.classes)
        ∧ (Open SplitConnStr tagsqlOpen databaseURL).opened = [])
    ∧ ((Open SplitConnStr tagsqlOpen databaseURL).db ≠ none →
        impl = .Postgres ∨ impl = .Cockroach) := by
  cases impl with
  | Postgres =>
    refine ⟨?_, fun _ => Or.inl rfl⟩
    simp only [Open, h]
    cases ho : tagsqlOpen "pgx" databaseURL with
    | error e0 =>
      refine ⟨rfl, fun tagdb ht => (by cases ht), fun e he => ?_⟩
      cases he
      exact ⟨rfl, rfl, Wrap_class _⟩
    | ok t0 =>
      refine ⟨rfl, fun tagdb ht => ?_, fun e he => (by cases he)⟩
      cases ht
      exact ⟨rfl, rfl⟩
  | Cockroach =>
    refine ⟨?_, fun _ => Or.inr rfl⟩
    simp only [Open, h]
    cases ho : tagsqlOpen "cockroach" databaseURL with
    | error e0 =>
      refine ⟨rfl, fun tagdb ht => (by cases ht), fun e he => ?_⟩
      cases he
      exact ⟨rfl, rfl, Wrap_class _⟩
    | ok t0 =>
      refine ⟨rfl, fun tagdb ht => ?_, fun e he => (by cases he)⟩
      cases ht
      exact ⟨rfl, rfl⟩
  | other code =>
    refine ⟨?_, fun hne => ?_⟩
    · simp [Open, h, Error.New]
    · exfalso
      apply hne
      simp [Open, h]

/-- Witness for C6: a Postgres connection string whose connection opens, a Cockroach
connection string whose connection is refused, and an unsupported connection string. -/
theorem Open_accepts_two_backends_witness :
    (sampleSplitConnStr "postgres://host/db" = .ok ("host/db", "postgres", .Postgres)
      ∧ (Open sampleSplitConnStr sampleTagsqlOpen "postgres://host/db").opened
          = [("pgx", "postgres://host/db")]
      ∧ (Open sampleSplitConnStr sampleTagsqlOpen "postgres://host/db").db
          = some ("pgx", "postgres://host/db")
      ∧ (Open sampleSplitConnStr sampleTagsqlOpen "postgres://host/db").err = none)
    ∧ (sampleSplitConnStr "cockroach://host/db" = .ok ("host/db", "cockroach", .Cockroach)
      ∧ (Open sampleSplitConnStr sampleTagsqlRefuse "cockroach://host/db").opened
          = [("cockroach", "cockroach://host/db")]
      ∧ (Open sampleSplitConnStr sampleTagsqlRefuse "cockroach://host/db").db = none
      ∧ (Open sampleSplitConnStr sampleTagsqlRefuse "cockroach://host/db").err
          = some { classes := ["db"], message := "connection refused" })
    ∧ (sampleSplitConnStr "sqlite3://file.db" = .ok ("file.db", "sqlite3", .other 5)
      ∧ (Open sampleSplitConnStr sampleTagsqlOpen "sqlite3://file.db").db = none
      ∧ (∃ e, (Open sampleSplitConnStr sampleTagsqlOpen "sqlite3://file.db").err = some e
          ∧ Error ∈ e.classes)
      ∧ (Open sampleSplitConnStr sampleTagsqlOpen "sqlite3://file.db").opened = []) :=
  ⟨⟨rfl,
    (Open_accepts_two_backends sampleSplitConnStr sampleTagsqlOpen
      "postgres://host/db" "host/db" "postgres" .Postgres rfl).1.1,
    ((Open_accepts_two_backends sampleSplitConnStr sampleTagsqlOpen
      "postgres://host/db" "host/db" "postgres" .Postgres rfl).1.2.1
        ("pgx", "postgres://host/db") rfl).1,
    ((Open_accepts_two_backends sampleSplitConnStr sampleTagsqlOpen
      "postgres://host/db" "host/db" "postgres" .Postgres rfl).1.2.1
        ("pgx", "postgres://host/db") rfl).2⟩,
   ⟨rfl,
    (Open_accepts_two_backends sampleSplitConnStr sampleTagsqlRefuse
      "cockroach://host/db" "host/db" "cockroach" .Cockroach rfl).1.1,
    ((Open_accepts_two_backends sampleSplitConnStr sampleTagsqlRefuse
      "cockroach://host/db" "host/db" "cockroach" .Cockroach rfl).1.2.2
        { classes := [], message := "connection refused" } rfl).1,
    ((Open_accepts_two_backends sampleSplitConnStr sampleTagsqlRefuse
      "cockroach://host/db" "host/db" "cockroach" .Cockroach rfl).1.2.2
        { classes := [], message := "connection refused" } rfl).2.1⟩,
   ⟨rfl, (Open_accepts_two_backends sampleSplitConnStr sampleTagsqlOpen
      "sqlite3://file.db" "file.db" "sqlite3" (.other 5) rfl).1⟩⟩

end db
namespace pack

/-! ### Pack object names -/

theorem decimal_injective (a b : Nat) (h : db.decimal a = db.decimal b) : a = b := by
  have key : ∀ n : Nat, n ≠ 0 → db.decimal n ≠ [48] := by
    intro n hn hd
    unfold db.decimal at hd
    rw [if_neg hn] at hd
    have h1 : (Nat.digits 10 n).reverse = [0] := by
      cases hr : (Nat.digits 10 n).reverse with
      | nil => rw [hr] at hd; simp at hd
      | cons x xs =>
        rw [hr] at hd
        simp only [List.map_cons, List.cons.injEq, List.map_eq_nil_iff] at hd
        obtain ⟨hx, hxs⟩ := hd
        have : x = 0 := by omega
        rw [this, hxs]
    have h2 : Nat.digits 10 n = [0] := by
      have := congrArg List.reverse h1
      simpa using this
    have h3 := Nat.ofDigits_digits 10 n
    rw [h2] at h3
    simp at h3
    exact hn h3.symm
  by_cases ha : a = 0
  · by_cases hb : b = 0
    · rw [ha, hb]
    · exfalso
      apply key b hb
      rw [← h, ha]; rfl
  · by_cases hb : b = 0
    · exfalso
      apply key a ha
      rw [h, hb]; rfl
    · unfold db.decimal at h
      rw [if_neg ha, if_neg hb] at h
      have hinj : Function.Injective (fun d : Nat => 48 + d) := fun x y hxy => by
        simp only at hxy; omega
      have h1 := List.map_injective_iff.2 hinj h
      exact Nat.digits.injective 10 (List.reverse_injective h1)

theorem packName_injective (a b : Nat) (h : packName a = packName b) : a = b := by
  unfold packName at h
  rw [db.Itoa_eq_decimal, db.Itoa_eq_decimal] at h
  exact decimal_injective a b (List.append_cancel_right h)

theorem packName_ne_nil (k : Nat) : packName k ≠ [] := by
  unfold packName; simp

/-! ### The pack builder -/

theorem readRange_at (pre data suf : List Nat) :
    readRange (pre ++ data ++ suf) pre.length data.length = data := by
  unfold readRange
  rw [List.append_assoc, List.drop_left, List.take_left]

theorem writeEntries_keys (fmt : ArchiveFormat) (es : List (List Nat × List Nat)) :
    ∀ pos, (writeEntries fmt pos es).2.map Prod.fst = es.map Prod.fst := by
  induction es with
  | nil => intro pos; rfl
  | cons e es ih =>
    intro pos
    obtain ⟨c, d⟩ := e
    simp only [writeEntries, List.map_cons, ih]

/-- The offset recorded for a CID is where its payload lies in the archive. -/
theorem writeEntries_lookup (fmt : ArchiveFormat) (es : List (List Nat × List Nat)) :
    ∀ (pos : Nat) (pre suf : List Nat) (c d : List Nat), pre.length = pos →
      (es.map Prod.fst).Nodup → (c, d) ∈ es →
      ∃ off, (writeEntries fmt pos es).2.lookup c = some off
        ∧ readRange (pre ++ (writeEntries fmt pos es).1 ++ suf) off d.length = d := by
  induction es with
  | nil => intro pos pre suf c d _ _ hm; simp at hm
  | cons e es ih =>
    intro pos pre suf c d hpos hnd hm
    obtain ⟨c0, d0⟩ := e
    simp only [List.map_cons, List.nodup_cons] at hnd
    simp only [writeEntries]
    rcases List.mem_cons.1 hm with heq | hin
    · obtain ⟨rfl, rfl⟩ := Prod.mk.inj heq
      refine ⟨pos + (fmt.localHeader c d).length, by simp, ?_⟩
      have e1 : pre ++ (fmt.localHeader c d ++ d ++ fmt.descriptor c d
            ++ (writeEntries fmt (pos + (fmt.localHeader c d).length + d.length
                  + (fmt.descriptor c d).length) es).1) ++ suf
          = (pre ++ fmt.localHeader c d) ++ d ++ (fmt.descriptor c d
            ++ (writeEntries fmt (pos + (fmt.localHeader c d).length + d.length
                  + (fmt.descriptor c d).length) es).1 ++ suf) := by
        simp [List.append_assoc]
      have e2 : pos + (fmt.localHeader c d).length = (pre ++ fmt.localHeader c d).length := by
        simp [hpos]
      rw [e1, e2]
      exact readRange_at _ _ _
    · have hne : c ≠ c0 := by
        intro hc
        apply hnd.1
        rw [← hc]
        exact List.mem_map.2 ⟨(c, d), hin, rfl⟩
      obtain ⟨off, hl, hr⟩ := ih (pos + (fmt.localHeader c0 d0).length + d0.length
          + (fmt.descriptor c0 d0).length)
          (pre ++ fmt.localHeader c0 d0 ++ d0 ++ fmt.descriptor c0 d0) suf c d
          (by simp [hpos]; omega) hnd.2 hin
      refine ⟨off, ?_, ?_⟩
      · rw [List.lookup_cons]
        have : (c == c0) = false := by simpa using hne
        rw [this]; exact hl
      · have e3 : pre ++ (fmt.localHeader c0 d0 ++ d0 ++ fmt.descriptor c0 d0
              ++ (writeEntries fmt (pos + (fmt.localHeader c0 d0).length + d0.length
                    + (fmt.descriptor c0 d0).length) es).1) ++ suf
            = pre ++ fmt.localHeader c0 d0 ++ d0 ++ fmt.descriptor c0 d0
              ++ (writeEntries fmt (pos + (fmt.localHeader c0 d0).length + d0.length
                    + (fmt.descriptor c0 d0).length) es).1 ++ suf := by
          simp [List.append_assoc]
        rw [e3]; exact hr

theorem buildPack_lookup (fmt : ArchiveFormat) (es : List (List Nat × List Nat))
    (c d : List Nat) (hnd : (es.map Prod.fst).Nodup) (hm : (c, d) ∈ es) :
    ∃ off, (buildPack fmt es).2.lookup c = some off
      ∧ readRange (buildPack fmt es).1 off d.length = d := by
  obtain ⟨off, h1, h2⟩ := writeEntries_lookup fmt es 0 [] (fmt.directory es) c d rfl hnd hm
  exact ⟨off, h1, by simpa [buildPack] using h2⟩

theorem buildPack_keys (fmt : ArchiveFormat) (es : List (List Nat × List Nat)) :
    (buildPack fmt es).2.map Prod.fst = es.map Prod.fst :=
  writeEntries_keys fmt es 0

/-! ### Scanning and claiming -/

theorem rowOK_status {log : List Nat → Option (List Nat)} {objects : List (List Nat × List Nat)}
    {b : Block} (h : RowOK log objects b) : b.pack_status ≠ Packing := by
  rcases h with h | h <;> (rw [h.1]; decide)

theorem listUnpacked_eq {log : List Nat → Option (List Nat)} {s : State}
    (h : Consistent log s) : ListUnpacked s.rows = unpackedRows s.rows := by
  unfold ListUnpacked unpackedRows
  apply List.Sorted.insertionSort_eq
  have h1 : s.rows.Pairwise (fun a b => a.created ≤ b.created) :=
    (List.pairwise_map (f := fun b : Block => b.created)).1 h.sorted
  exact h1.sublist (List.filter_sublist _)

theorem mem_unpackedRows {rows : List Block} {b : Block} :
    b ∈ unpackedRows rows ↔ b ∈ rows ∧ b.deleted = false ∧ b.pack_status = Unpacked := by
  simp [unpackedRows, List.mem_filter]

theorem scan_sublist (maxPackSize : Nat) (l : List Block) :
    ∀ sum, (scan maxPackSize sum l).Sublist l := by
  induction l with
  | nil => intro sum; simp [scan]
  | cons b bs ih =>
    intro sum
    simp only [scan]
    split_ifs
    · exact (ih sum).cons b
    · exact List.nil_sublist _
    · exact (ih _).cons₂ b

theorem totalSize_cons (b : Block) (bs : List Block) :
    totalSize (b :: bs) = b.size + totalSize bs := by
  simp [totalSize]

theorem totalSize_append (xs ys : List Block) :
    totalSize (xs ++ ys) = totalSize xs + totalSize ys := by
  simp [totalSize]

theorem totalSize_sublist {xs ys : List Block} (h : xs.Sublist ys) :
    totalSize xs ≤ totalSize ys := by
  induction h with
  | slnil => simp
  | cons b _ ih => rw [totalSize_cons]; omega
  | cons₂ b _ ih => rw [totalSize_cons, totalSize_cons]; omega

/-- The batch of a cycle in a consistent state: rows of the table, not deleted,
Unpacked, with distinct CIDs. -/
theorem batch_mem {log : List Nat → Option (List Nat)} {s : State} (h : Consistent log s)
    (maxPackSize : Nat) {b : Block} (hb : b ∈ scan maxPackSize 0 (ListUnpacked s.rows)) :
    b ∈ s.rows ∧ b.deleted = false ∧ b.pack_status = Unpacked := by
  rw [listUnpacked_eq h] at hb
  exact mem_unpackedRows.1 ((scan_sublist maxPackSize _ 0).subset hb)

theorem batch_sublist {log : List Nat → Option (List Nat)} {s : State} (h : Consistent log s)
    (maxPackSize : Nat) : (scan maxPackSize 0 (ListUnpacked s.rows)).Sublist s.rows := by
  rw [listUnpacked_eq h]
  exact (scan_sublist maxPackSize _ 0).trans (List.filter_sublist _)

theorem batch_nodup {log : List Nat → Option (List Nat)} {s : State} (h : Consistent log s)
    (maxPackSize : Nat) :
    ((scan maxPackSize 0 (ListUnpacked s.rows)).map (fun b => b.cid)).Nodup :=
  h.nodup.sublist ((batch_sublist h maxPackSize).map _)

/-- Rows of a table with distinct CIDs are determined by their CID. -/
theorem row_eq_of_cid {rows : List Block} (hnd : (rows.map (fun b => b.cid)).Nodup)
    {a b : Block} (ha : a ∈ rows) (hb : b ∈ rows) (h : a.cid = b.cid) : a = b :=
  List.inj_on_of_nodup_map hnd ha hb h

theorem claimed_eq (rows batch : List Block)
    (hb : ∀ b ∈ batch, b ∈ rows ∧ b.pack_status = Unpacked) :
    batch.filter (fun b => b.cid ∈ (ClaimForPacking (batch.map (fun b => b.cid)) rows).2)
      = batch := by
  apply List.filter_eq_self.2
  intro b hbm
  simp only [ClaimForPacking, decide_eq_true_eq, List.mem_map, List.mem_filter]
  exact ⟨b, ⟨(hb b hbm).1, ⟨b, hbm, rfl⟩, (hb b hbm).2⟩, rfl⟩

theorem abort_claim (cids : List (List Nat)) (rows : List Block)
    (hp : ∀ b ∈ rows, b.pack_status ≠ Packing) :
    AbortPacking cids (ClaimForPacking cids rows).1 = rows := by
  unfold AbortPacking ClaimForPacking
  rw [List.map_map]
  conv_rhs => rw [← List.map_id rows]
  apply List.map_congr_left
  intro b hb
  simp only [Function.comp, id]
  by_cases hc : b.cid ∈ cids ∧ b.pack_status = Unpacked
  · rw [if_pos hc]
    simp only [hc.1, true_and, if_true]
    obtain ⟨c, sz, cr, d, del, po, off, st⟩ := b
    simp only at hc
    simp [hc.2]
  · rw [if_neg hc, if_neg]
    exact fun h => hp b hb h.2

theorem commit_claim (name : List Nat) (offsets : List (List Nat × Nat))
    (rows batch : List Block) (hnd : (rows.map (fun b => b.cid)).Nodup)
    (hb : ∀ b ∈ batch, b ∈ rows ∧ b.pack_status = Unpacked)
    (hk : offsets.map Prod.fst = batch.map (fun b => b.cid)) :
    CommitPacked name offsets (ClaimForPacking (batch.map (fun b => b.cid)) rows).1
      = some (rows.map (fun b =>
          if b.cid ∈ batch.map (fun b => b.cid) then packedRow name offsets b else b)) := by
  have hlook : ∀ c, c ∉ batch.map (fun b => b.cid) → offsets.lookup c = none := by
    intro c hc
    rw [List.lookup_eq_none_iff]
    intro p hp
    simp only [bne_iff_ne, ne_eq]
    intro e
    apply hc
    rw [← hk, e]
    exact List.mem_map.2 ⟨p, hp, rfl⟩
  have hsome : ∀ c, c ∈ batch.map (fun b => b.cid) → ∃ off, offsets.lookup c = some off := by
    intro c hc
    rw [← hk] at hc
    obtain ⟨p, hp, rfl⟩ := List.mem_map.1 hc
    have : (offsets.lookup p.1).isSome := by
      rw [List.lookup_isSome_iff]
      exact ⟨p, hp, by simp⟩
    exact Option.isSome_iff_exists.1 this
  have hun : ∀ b ∈ rows, b.cid ∈ batch.map (fun b => b.cid) → b.pack_status = Unpacked := by
    intro b hbr hc
    obtain ⟨b0, hb0, e⟩ := List.mem_map.1 hc
    have : b0 = b := row_eq_of_cid hnd (hb b0 hb0).1 hbr e
    rw [← this]; exact (hb b0 hb0).2
  unfold CommitPacked ClaimForPacking
  rw [if_pos]
  · rw [List.map_map]
    congr 1
    apply List.map_congr_left
    intro b hbr
    simp only [Function.comp]
    by_cases hc : b.cid ∈ batch.map (fun b => b.cid)
    · obtain ⟨off, ho⟩ := hsome _ hc
      rw [if_pos ⟨hc, hun b hbr hc⟩, if_pos hc]
      simp [packedRow, ho]
    · rw [if_neg (fun h => hc h.1), if_neg hc, hlook _ hc]
  · rw [List.all_eq_true]
    intro b' hb'
    obtain ⟨b, hbr, rfl⟩ := List.mem_map.1 hb'
    by_cases hc : b.cid ∈ batch.map (fun b => b.cid)
    · rw [if_pos ⟨hc, hun b hbr hc⟩]; simp
    · rw [if_neg (fun h => hc h.1), hlook _ hc]; simp

/-! ### What a cycle does in a consistent state -/

theorem cycle_idle (cfg : Config) (fault : Fault) (s : State)
    (h : totalSize (scan cfg.MaxPackSize 0 (ListUnpacked s.rows)) < cfg.MinPackSize) :
    cycle cfg fault s = s := by
  simp only [cycle, if_pos h]

theorem cycle_success {log : List Nat → Option (List Nat)} {s : State} (cfg : Config)
    (h : Consistent log s)
    (hmin : ¬ totalSize (scan cfg.MaxPackSize 0 (ListUnpacked s.rows)) < cfg.MinPackSize) :
    cycle cfg Fault.none s =
      { s with
        rows := s.rows.map (fun b =>
          if b.cid ∈ (scan cfg.MaxPackSize 0 (ListUnpacked s.rows)).map (fun b => b.cid) then
            packedRow (packName s.packs)
              (buildPack cfg.format ((scan cfg.MaxPackSize 0 (ListUnpacked s.rows)).map
                (fun b => (b.cid, b.data.getD [])))).2 b
          else b),
        objects := (packName s.packs,
          (buildPack cfg.format ((scan cfg.MaxPackSize 0 (ListUnpacked s.rows)).map
            (fun b => (b.cid, b.data.getD [])))).1) :: s.objects,
        packs := s.packs + 1 } := by
  have hb : ∀ b ∈ scan cfg.MaxPackSize 0 (ListUnpacked s.rows),
      b ∈ s.rows ∧ b.pack_status = Unpacked :=
    fun b hb => ⟨(batch_mem h _ hb).1, (batch_mem h _ hb).2.2⟩
  simp only [cycle, if_neg hmin]
  rw [claimed_eq s.rows _ hb]
  rw [commit_claim _ _ s.rows _ h.nodup hb
    (by rw [buildPack_keys, List.map_map]; rfl)]

theorem cycle_fault {log : List Nat → Option (List Nat)} {s : State} (cfg : Config)
    (h : Consistent log s) (fault : Fault) (hf : fault ≠ Fault.none) :
    (cycle cfg fault s).rows = s.rows
    ∧ (cycle cfg fault s).clock = s.clock
    ∧ (cycle cfg fault s).packs ≤ s.packs + 1
    ∧ s.packs ≤ (cycle cfg fault s).packs
    ∧ ((cycle cfg fault s).objects = s.objects
        ∨ ∃ blob, (cycle cfg fault s).objects = (packName s.packs, blob) :: s.objects
            ∧ (cycle cfg fault s).packs = s.packs + 1) := by
  by_cases hmin : totalSize (scan cfg.MaxPackSize 0 (ListUnpacked s.rows)) < cfg.MinPackSize
  · rw [cycle_idle cfg fault s hmin]
    exact ⟨rfl, rfl, by omega, by omega, Or.inl rfl⟩
  · have hb : ∀ b ∈ scan cfg.MaxPackSize 0 (ListUnpacked s.rows),
        b ∈ s.rows ∧ b.pack_status = Unpacked :=
      fun b hb => ⟨(batch_mem h _ hb).1, (batch_mem h _ hb).2.2⟩
    have hp : ∀ b ∈ s.rows, b.pack_status ≠ Packing := fun b hb => rowOK_status (h.rows b hb)
    cases fault with
    | none => exact absurd rfl hf
    | build =>
      simp only [cycle, if_neg hmin]
      rw [claimed_eq s.rows _ hb, abort_claim _ _ hp]
      simp
    | upload =>
      simp only [cycle, if_neg hmin]
      rw [claimed_eq s.rows _ hb, abort_claim _ _ hp]
      simp
    | commit del =>
      simp only [cycle, if_neg hmin]
      rw [claimed_eq s.rows _ hb, abort_claim _ _ hp]
      cases del <;> simp

/-! ### The invariant is kept by every operation -/

theorem mem_of_lookup {objects : List (List Nat × List Nat)} {n blob : List Nat}
    (h : objects.lookup n = some blob) : (n, blob) ∈ objects := by
  induction objects with
  | nil => simp at h
  | cons o os ih =>
    obtain ⟨n0, b0⟩ := o
    rw [List.lookup_cons] at h
    by_cases e : n = n0
    · subst e
      simp only [beq_self_eq_true, Option.some.injEq] at h
      rw [h]; exact List.mem_cons_self _ _
    · have : (n == n0) = false := by simpa using e
      rw [this] at h
      exact List.mem_cons_of_mem _ (ih h)

/-- Uploading under the next pack name does not disturb the rows already packed. -/
theorem rowOK_upload {log : List Nat → Option (List Nat)} {s : State}
    (hn : ∀ o ∈ s.objects, ∃ k, k < s.packs ∧ o.1 = packName k) (blob : List Nat) {b : Block}
    (h : RowOK log s.objects b) : RowOK log ((packName s.packs, blob) :: s.objects) b := by
  rcases h with h | ⟨h1, h2, h3, blob0, h4, h5⟩
  · exact Or.inl h
  · refine Or.inr ⟨h1, h2, h3, blob0, ?_, h5⟩
    obtain ⟨k, hk, e⟩ := hn _ (mem_of_lookup h4)
    have hne : b.pack_object ≠ packName s.packs := by
      intro e2
      simp only at e
      rw [e2] at e
      have := packName_injective _ _ e
      omega
    rw [List.lookup_cons]
    have : (b.pack_object == packName s.packs) = false := by simpa using hne
    rw [this]; exact h4

theorem rowOK_log {log log2 : List Nat → Option (List Nat)}
    {objects : List (List Nat × List Nat)} {b : Block}
    (hl : ∀ c v, log c = some v → log2 c = some v) (h : RowOK log objects b) :
    RowOK log2 objects b := by
  rcases h with ⟨h1, h2, h3, v, h4, h5, h6⟩ | ⟨h1, h2, h3, blob, h4, h5⟩
  · exact Or.inl ⟨h1, h2, h3, v, h4, h5, hl _ _ h6⟩
  · exact Or.inr ⟨h1, h2, h3, blob, h4, hl _ _ h5⟩

theorem consistent_init : Consistent (fun _ => none) State.init where
  nodup := by simp [State.init]
  sorted := by simp [State.init]
  clock := by simp [State.init]
  names := by simp [State.init]
  rows := by simp [State.init]
  fresh := by simp

theorem consistent_put {log log2 : List Nat → Option (List Nat)} {s : State}
    (key value : List Nat) (h : Consistent log s)
    (hl : ∀ c, log2 c = (log c).or (if cidOf key = c then some value else none)) :
    Consistent log2 (Put key value s) := by
  have hext : ∀ c v, log c = some v → log2 c = some v := by
    intro c v hc; rw [hl, hc]; rfl
  unfold Put
  by_cases hin : cidOf key ∈ s.rows.map (fun b => b.cid)
  · rw [if_pos hin]
    refine ⟨h.nodup, h.sorted, h.clock, h.names, fun b hb => rowOK_log hext (h.rows b hb), ?_⟩
    intro c hc
    have hne : cidOf key ≠ c := fun e => hc (e ▸ hin)
    rw [hl, h.fresh c hc, if_neg hne]; rfl
  · rw [if_neg hin]
    refine ⟨?_, ?_, ?_, h.names, ?_, ?_⟩
    · simp only [List.map_append, List.map_cons, List.map_nil]
      rw [List.nodup_append]
      refine ⟨h.nodup, by simp, ?_⟩
      intro a ha hb
      simp only [List.mem_singleton] at hb
      exact hin (hb ▸ ha)
    · simp only [List.map_append, List.map_cons, List.map_nil]
      rw [List.pairwise_append]
      refine ⟨h.sorted, by simp, ?_⟩
      intro a ha b hb
      simp only [List.mem_singleton] at hb
      obtain ⟨r, hr, rfl⟩ := List.mem_map.1 ha
      have := h.clock r hr
      omega
    · intro b hb
      simp only [List.mem_append, List.mem_singleton] at hb
      rcases hb with hb | rfl
      · have := h.clock b hb
        simp only; omega
      · simp
    · intro b hb
      simp only [List.mem_append, List.mem_singleton] at hb
      rcases hb with hb | rfl
      · exact rowOK_log hext (h.rows b hb)
      · refine Or.inl ⟨rfl, rfl, rfl, value, rfl, rfl, ?_⟩
        simp only
        rw [hl, h.fresh _ hin, if_pos rfl]; rfl
    · intro c hc
      simp only [List.map_append, List.map_cons, List.map_nil, List.mem_append,
        List.mem_singleton, not_or] at hc
      rw [hl, h.fresh c hc.1, if_neg (fun e => hc.2 e.symm)]; rfl

theorem consistent_delete {log : List Nat → Option (List Nat)} {s : State}
    (key : List Nat) (h : Consistent log s) : Consistent log (Delete key s) := by
  have hcid : (Delete key s).rows.map (fun b => b.cid) = s.rows.map (fun b => b.cid) := by
    simp only [Delete, List.map_map]
    apply List.map_congr_left
    intro b _
    simp only [Function.comp]
    split_ifs <;> rfl
  have hcr : (Delete key s).rows.map (fun b => b.created)
      = s.rows.map (fun b => b.created) := by
    simp only [Delete, List.map_map]
    apply List.map_congr_left
    intro b _
    simp only [Function.comp]
    split_ifs <;> rfl
  refine ⟨hcid ▸ h.nodup, hcr ▸ h.sorted, ?_, h.names, ?_, ?_⟩
  · intro b hb
    simp only [Delete, List.mem_map] at hb
    obtain ⟨r, hr, rfl⟩ := hb
    have := h.clock r hr
    split_ifs <;> simpa using this
  · intro b hb
    simp only [Delete, List.mem_map] at hb
    obtain ⟨r, hr, rfl⟩ := hb
    have := h.rows r hr
    split_ifs
    · exact this
    · exact this
  · intro c hc
    rw [hcid] at hc
    exact h.fresh c hc

theorem consistent_cycle {log : List Nat → Option (List Nat)} {s : State} (cfg : Config)
    (fault : Fault) (h : Consistent log s) : Consistent log (cycle cfg fault s) := by
  by_cases hf : fault = Fault.none
  · subst hf
    by_cases hmin : totalSize (scan cfg.MaxPackSize 0 (ListUnpacked s.rows)) < cfg.MinPackSize
    · rw [cycle_idle cfg _ s hmin]; exact h
    · rw [cycle_success cfg h hmin]
      have hcid : ∀ (name : List Nat) (offsets : List (List Nat × Nat)) (cids : List (List Nat)),
          (s.rows.map (fun b => if b.cid ∈ cids then packedRow name offsets b else b)).map
            (fun b => b.cid) = s.rows.map (fun b => b.cid) := by
        intro name offsets cids
        rw [List.map_map]
        apply List.map_congr_left
        intro b _
        simp only [Function.comp]
        split_ifs <;> rfl
      have hcr : ∀ (name : List Nat) (offsets : List (List Nat × Nat)) (cids : List (List Nat)),
          (s.rows.map (fun b => if b.cid ∈ cids then packedRow name offsets b else b)).map
            (fun b => b.created) = s.rows.map (fun b => b.created) := by
        intro name offsets cids
        rw [List.map_map]
        apply List.map_congr_left
        intro b _
        simp only [Function.comp]
        split_ifs <;> rfl
      refine ⟨?_, ?_, ?_, ?_, ?_, ?_⟩
      · simp only; rw [hcid]; exact h.nodup
      · simp only; rw [hcr]; exact h.sorted
      · intro b hb
        simp only [List.mem_map] at hb
        obtain ⟨r, hr, rfl⟩ := hb
        have := h.clock r hr
        split_ifs <;> simpa [packedRow] using this
      · intro o ho
        simp only [List.mem_cons] at ho
        rcases ho with rfl | ho
        · exact ⟨s.packs, by simp, rfl⟩
        · obtain ⟨k, hk, e⟩ := h.names o ho
          exact ⟨k, by simp only; omega, e⟩
      · intro b hb
        obtain ⟨r, hr, rfl⟩ := List.mem_map.1 hb
        show RowOK log (_ :: s.objects) _
        by_cases hc : r.cid ∈ (scan cfg.MaxPackSize 0 (ListUnpacked s.rows)).map (fun b => b.cid)
        · rw [if_pos hc]
          obtain ⟨b0, hb0, e⟩ := List.mem_map.1 hc
          have hb0r := batch_mem h cfg.MaxPackSize hb0
          have hrb : b0 = r := row_eq_of_cid h.nodup hb0r.1 hr e
          subst hrb
          rcases h.rows b0 hr with ⟨_, _, _, v, hd, hs, hl⟩ | ⟨hst, _⟩
          · have hmem : (b0.cid, v) ∈ (scan cfg.MaxPackSize 0 (ListUnpacked s.rows)).map
                (fun b => (b.cid, b.data.getD [])) :=
              List.mem_map.2 ⟨b0, hb0, by simp [hd]⟩
            have hnd : (((scan cfg.MaxPackSize 0 (ListUnpacked s.rows)).map
                (fun b => (b.cid, b.data.getD []))).map Prod.fst).Nodup := by
              rw [List.map_map]
              exact batch_nodup h cfg.MaxPackSize
            obtain ⟨off, ho, hrd⟩ := buildPack_lookup cfg.format _ b0.cid v hnd hmem
            refine Or.inr ⟨rfl, packName_ne_nil _, rfl, _, List.lookup_cons_self, ?_⟩
            simp only [packedRow, ho, Option.getD_some, hs, hrd]
            exact hl
          · rw [hb0r.2.2] at hst
            exact absurd hst (by decide)
        · rw [if_neg hc]
          exact rowOK_upload h.names _ (h.rows r hr)
      · intro c hc
        simp only at hc
        rw [hcid] at hc
        exact h.fresh c hc
  · obtain ⟨hr, hcl, hp1, hp2, hobj⟩ := cycle_fault cfg h fault hf
    refine ⟨hr ▸ h.nodup, hr ▸ h.sorted, ?_, ?_, ?_, ?_⟩
    · intro b hb
      rw [hr] at hb
      rw [hcl]
      exact h.clock b hb
    · intro o ho
      rcases hobj with e | ⟨blob, e, ep⟩
      · rw [e] at ho
        obtain ⟨k, hk, e2⟩ := h.names o ho
        exact ⟨k, by omega, e2⟩
      · rw [e] at ho
        rcases List.mem_cons.1 ho with rfl | ho
        · exact ⟨s.packs, by omega, rfl⟩
        · obtain ⟨k, hk, e2⟩ := h.names o ho
          exact ⟨k, by omega, e2⟩
    · intro b hb
      rw [hr] at hb
      rcases hobj with e | ⟨blob, e, _⟩
      · rw [e]; exact h.rows b hb
      · rw [e]; exact rowOK_upload h.names blob (h.rows b hb)
    · intro c hc
      rw [hr] at hc
      exact h.fresh c hc

theorem run_append (cfg : Config) (ops : List Op) (op : Op) :
    run cfg (ops ++ [op]) = step cfg (run cfg ops) op := by
  simp [run, List.foldl_append]

theorem firstPut_append (ops : List Op) (op : Op) (c : List Nat) :
    firstPut (ops ++ [op]) c = (firstPut ops c).or
      (match op with
       | .Put key value => if cidOf key = c then some value else none
       | _ => none) := by
  unfold firstPut
  rw [List.filterMap_append, List.head?_append]
  congr 1
  cases op with
  | Put key value =>
    simp only [List.filterMap_cons, List.filterMap_nil]
    split_ifs with hk <;> simp [hk]
  | Delete key => simp
  | Tick fault => simp

/-- Every state reached from the fresh datastore is consistent with the payloads put. -/
theorem consistent_run (cfg : Config) (ops : List Op) :
    Consistent (firstPut ops) (run cfg ops) := by
  induction ops using List.reverseRecOn with
  | nil => exact consistent_init
  | append_singleton ops op ih =>
    rw [run_append]
    cases op with
    | Put key value =>
      exact consistent_put key value ih (fun c => firstPut_append ops _ c)
    | Delete key =>
      have e : firstPut (ops ++ [Op.Delete key]) = firstPut ops := by
        funext c; rw [firstPut_append]; simp
      rw [e]; exact consistent_delete key ih
    | Tick fault =>
      have e : firstPut (ops ++ [Op.Tick fault]) = firstPut ops := by
        funext c; rw [firstPut_append]; simp
      rw [e]; exact consistent_cycle cfg fault ih

/-! ### The batch is the longest prefix within `MaxPackSize` -/

theorem scan_longest (maxPackSize : Nat) (l : List Block)
    (hsmall : ∀ b ∈ l, b.size ≤ maxPackSize) :
    ∀ sum, sum ≤ maxPackSize →
      scan maxPackSize sum l <+: l
      ∧ sum + totalSize (scan maxPackSize sum l) ≤ maxPackSize
      ∧ ∀ p, p <+: l → sum + totalSize p ≤ maxPackSize →
          p.length ≤ (scan maxPackSize sum l).length := by
  induction l with
  | nil =>
    intro sum hs
    refine ⟨by simp [scan], by simpa [scan, totalSize] using hs, ?_⟩
    intro p hp _
    rw [List.prefix_nil] at hp
    simp [hp]
  | cons b bs ih =>
    intro sum hs
    have hb : ¬ maxPackSize < b.size := by
      have := hsmall b (List.mem_cons_self _ _)
      omega
    have hbs : ∀ x ∈ bs, x.size ≤ maxPackSize := fun x hx => hsmall x (List.mem_cons_of_mem _ hx)
    simp only [scan, if_neg hb]
    by_cases hover : maxPackSize < sum + b.size
    · rw [if_pos hover]
      refine ⟨ List.nil_prefix, by simpa [totalSize] using hs, ?_⟩
      intro p hp hpt
      cases p with
      | nil => simp
      | cons x xs =>
        rw [List.cons_prefix_cons] at hp
        rw [hp.1, totalSize_cons] at hpt
        omega
    · rw [if_neg hover]
      obtain ⟨h1, h2, h3⟩ := ih hbs (sum + b.size) (by omega)
      refine ⟨(List.prefix_cons_inj b).2 h1, by rw [totalSize_cons]; omega, ?_⟩
      intro p hp hpt
      cases p with
      | nil => simp
      | cons x xs =>
        rw [List.cons_prefix_cons] at hp
        rw [hp.1, totalSize_cons] at hpt
        have := h3 xs hp.2 (by omega)
        simp only [List.length_cons]
        omega

/-! ### The rows left Unpacked by a successful cycle -/

theorem unpackedRows_map_packed (rows : List Block) (cids : List (List Nat))
    (name : List Nat) (offsets : List (List Nat × Nat)) :
    unpackedRows (rows.map (fun b => if b.cid ∈ cids then packedRow name offsets b else b))
      = (unpackedRows rows).filter (fun b => decide (b.cid ∉ cids)) := by
  unfold unpackedRows
  induction rows with
  | nil => rfl
  | cons r rs ih =>
    rw [List.map_cons, List.filter_cons, ih]
    by_cases hc : r.cid ∈ cids
    · rw [if_pos hc]
      have e1 : (!(packedRow name offsets r).deleted
          && (packedRow name offsets r).pack_status == Unpacked) = false := by
        simp [packedRow]
      rw [e1]
      simp only [Bool.false_eq_true, if_false]
      rw [List.filter_cons]
      by_cases hp : (!r.deleted && r.pack_status == Unpacked) = true
      · rw [if_pos hp, List.filter_cons]
        have : decide (r.cid ∉ cids) = false := by simpa using hc
        rw [this]; simp
      · rw [if_neg hp]
    · rw [if_neg hc, List.filter_cons]
      by_cases hp : (!r.deleted && r.pack_status == Unpacked) = true
      · rw [if_pos hp, if_pos hp, List.filter_cons]
        have : decide (r.cid ∉ cids) = true := by simpa using hc
        rw [this]; simp
      · rw [if_neg hp, if_neg hp]

theorem unpackedRows_after_pack (rows batch rest : List Block) (name : List Nat)
    (offsets : List (List Nat × Nat))
    (hnd : (rows.map (fun b => b.cid)).Nodup)
    (hsplit : unpackedRows rows = batch ++ rest) :
    unpackedRows (rows.map (fun b =>
        if b.cid ∈ batch.map (fun b => b.cid) then packedRow name offsets b else b)) = rest := by
  have hnd2 : ((batch ++ rest).map (fun b => b.cid)).Nodup := by
    rw [← hsplit]
    exact hnd.sublist ((List.filter_sublist _).map _)
  rw [List.map_append, List.nodup_append] at hnd2
  rw [unpackedRows_map_packed, hsplit, List.filter_append]
  have h1 : batch.filter (fun b => decide (b.cid ∉ batch.map (fun b => b.cid))) = [] := by
    rw [List.filter_eq_nil_iff]
    intro b hb
    simp only [decide_not, Bool.not_eq_true', decide_eq_false_iff_not, not_not]
    exact List.mem_map.2 ⟨b, hb, rfl⟩
  have h2 : rest.filter (fun b => decide (b.cid ∉ batch.map (fun b => b.cid))) = rest := by
    rw [List.filter_eq_self]
    intro b hb
    simp only [decide_not, Bool.not_eq_true', decide_eq_false_iff_not]
    intro hc
    exact hnd2.2.2 hc (List.mem_map.2 ⟨b, hb, rfl⟩)
  rw [h1, h2, List.nil_append]

/-! ### The claims about the pack pipeline -/

/-- **C7.** In every state reached by `Put`, `Delete` and packer cycles from the fresh
datastore, an Unpacked row has an empty `pack_object`, `pack_offset = 0` and non-null
`data`, and a Packed row has a non-empty `pack_object` and null `data`. -/
theorem reachable_rows_exclusive_location (cfg : Config) (ops : List Op) (b : Block)
    (hb : b ∈ (run cfg ops).rows) :
    (b.pack_status = Unpacked → b.pack_object = [] ∧ b.pack_offset = 0 ∧ b.data ≠ none)
    ∧ (b.pack_status = Packed → b.pack_object ≠ [] ∧ b.data = none) := by
  rcases (consistent_run cfg ops).rows b hb with
    ⟨h1, h2, h3, v, h4, _, _⟩ | ⟨h1, h2, h3, _⟩
  · refine ⟨fun _ => ⟨h2, h3, by rw [h4]; simp⟩, fun hp => ?_⟩
    rw [h1] at hp
    exact absurd hp (by decide)
  · refine ⟨fun hu => ?_, fun _ => ⟨h2, h3⟩⟩
    rw [h1] at hu
    exact absurd hu (by decide)

/-- Witness for C7: the packed row of block `a` after the short history. -/
theorem reachable_rows_exclusive_location_witness :
    ({ cid := [97], size := 3, created := 0, data := none, deleted := false,
       pack_object := [48, 46, 122, 105, 112], pack_offset := 31, pack_status := 2 } : Block)
      ∈ (run smallConfig smallOps).rows
    ∧ ((2 : Nat) = Unpacked →
        ([48, 46, 122, 105, 112] : List Nat) = [] ∧ (31 : Nat) = 0
          ∧ (none : Option (List Nat)) ≠ none)
    ∧ ((2 : Nat) = Packed →
        ([48, 46, 122, 105, 112] : List Nat) ≠ [] ∧ (none : Option (List Nat)) = none) :=
  ⟨by decide,
   reachable_rows_exclusive_location smallConfig smallOps
     { cid := [97], size := 3, created := 0, data := none, deleted := false,
       pack_object := [48, 46, 122, 105, 112], pack_offset := 31, pack_status := 2 }
     (by decide)⟩

/-- **C4.** For every row the packer has set to Packed, the pack object named by the row
exists and reading `size` bytes at `pack_offset` of it returns the bytes passed to `Put`
for that CID. -/
theorem packed_row_range_read (cfg : Config) (ops : List Op) (b : Block)
    (hb : b ∈ (run cfg ops).rows) (hp : b.pack_status = Packed) :
    ∃ blob, (run cfg ops).objects.lookup b.pack_object = some blob
      ∧ firstPut ops b.cid = some (readRange blob b.pack_offset b.size) := by
  rcases (consistent_run cfg ops).rows b hb with ⟨h1, _⟩ | ⟨_, _, _, blob, h4, h5⟩
  · rw [h1] at hp
    exact absurd hp (by decide)
  · exact ⟨blob, h4, h5⟩

/-- Witness for C4: block `b` of the short history is read back from offset 65 of the
pack object, behind its own 30-byte header and name. -/
theorem packed_row_range_read_witness :
    ({ cid := [98], size := 2, created := 1, data := none, deleted := false,
       pack_object := [48, 46, 122, 105, 112], pack_offset := 65, pack_status := 2 } : Block)
      ∈ (run smallConfig smallOps).rows
    ∧ (2 : Nat) = Packed
    ∧ (∃ blob, (run smallConfig smallOps).objects.lookup [48, 46, 122, 105, 112] = some blob
        ∧ firstPut smallOps [98] = some (readRange blob 65 2))
    ∧ firstPut smallOps [98] = some [4, 5] :=
  ⟨by decide, rfl,
   packed_row_range_read smallConfig smallOps
     { cid := [98], size := 2, created := 1, data := none, deleted := false,
       pack_object := [48, 46, 122, 105, 112], pack_offset := 65, pack_status := 2 }
     (by decide) rfl,
   by decide⟩

theorem cycles_idle (cfg : Config) (s : State)
    (h : totalSize (nextBatch cfg s) < cfg.MinPackSize) :
    ∀ faults : List Fault, cycles cfg faults s = s := by
  intro faults
  induction faults with
  | nil => rfl
  | cons f fs ih =>
    simp only [cycles, List.foldl_cons] at ih ⊢
    rw [cycle_idle cfg f s h]
    exact ih

/-- **C5.** When no unpacked, non-deleted block alone exceeds `MaxPackSize`, the batch of
the next cycle is the longest prefix of these blocks, in creation order, whose total size
is within `MaxPackSize`.  If that total reaches `MinPackSize`, the cycle packs exactly
this prefix into one pack object and leaves the other blocks Unpacked; and as long as
their total stays below `MinPackSize`, further cycles leave the table as it is. -/
theorem packer_longest_prefix_packed (cfg : Config) (ops : List Op)
    (hsmall : ∀ b ∈ ListUnpacked (run cfg ops).rows, b.size ≤ cfg.MaxPackSize) :
    (nextBatch cfg (run cfg ops) <+: ListUnpacked (run cfg ops).rows
      ∧ totalSize (nextBatch cfg (run cfg ops)) ≤ cfg.MaxPackSize
      ∧ ∀ p, p <+: ListUnpacked (run cfg ops).rows → totalSize p ≤ cfg.MaxPackSize →
          p.length ≤ (nextBatch cfg (run cfg ops)).length)
    ∧ (cfg.MinPackSize ≤ totalSize (nextBatch cfg (run cfg ops)) →
        (∀ b ∈ nextBatch cfg (run cfg ops),
          ∃ b2 ∈ (cycle cfg Fault.none (run cfg ops)).rows,
            b2.cid = b.cid ∧ b2.pack_status = Packed
              ∧ b2.pack_object = packName (run cfg ops).packs)
        ∧ ListUnpacked (cycle cfg Fault.none (run cfg ops)).rows
            = (ListUnpacked (run cfg ops).rows).drop (nextBatch cfg (run cfg ops)).length
        ∧ (totalSize ((ListUnpacked (run cfg ops).rows).drop
              (nextBatch cfg (run cfg ops)).length) < cfg.MinPackSize →
            ∀ faults : List Fault,
              cycles cfg faults (cycle cfg Fault.none (run cfg ops))
                = cycle cfg Fault.none (run cfg ops))) := by
  have hc := consistent_run cfg ops
  obtain ⟨h1, h2, h3⟩ := scan_longest cfg.MaxPackSize _ hsmall 0 (Nat.zero_le _)
  refine ⟨⟨h1, by simpa [nextBatch] using h2, fun p hp ht => h3 p hp (by simpa using ht)⟩, ?_⟩
  intro hmin
  have hnot : ¬ totalSize (scan cfg.MaxPackSize 0 (ListUnpacked (run cfg ops).rows))
      < cfg.MinPackSize := by
    unfold nextBatch at hmin; omega
  have hc2 : Consistent (firstPut ops) (cycle cfg Fault.none (run cfg ops)) :=
    consistent_cycle cfg Fault.none hc
  have hrest : ListUnpacked (cycle cfg Fault.none (run cfg ops)).rows
      = (ListUnpacked (run cfg ops).rows).drop (nextBatch cfg (run cfg ops)).length := by
    rw [listUnpacked_eq hc2, cycle_success cfg hc hnot]
    obtain ⟨rest, hr⟩ := h1
    have hr2 : unpackedRows (run cfg ops).rows
        = scan cfg.MaxPackSize 0 (ListUnpacked (run cfg ops).rows) ++ rest := by
      rw [hr]; exact (listUnpacked_eq hc).symm
    rw [unpackedRows_after_pack _ _ rest _ _ hc.nodup hr2]
    have hd : ∀ l a r : List Block, a ++ r = l → l.drop a.length = r := by
      intro l a r e; subst e; simp
    exact (hd _ _ _ hr).symm
  refine ⟨?_, hrest, ?_⟩
  · intro b hb
    have hbr := batch_mem hc cfg.MaxPackSize hb
    rw [cycle_success cfg hc hnot]
    refine ⟨_, List.mem_map.2 ⟨b, hbr.1, rfl⟩, ?_⟩
    have hin : b.cid ∈ (scan cfg.MaxPackSize 0 (ListUnpacked (run cfg ops).rows)).map
        (fun b => b.cid) := List.mem_map.2 ⟨b, hb, rfl⟩
    rw [if_pos hin]
    exact ⟨rfl, rfl, rfl⟩
  · intro hlt
    apply cycles_idle
    unfold nextBatch
    rw [hrest]
    exact lt_of_le_of_lt (totalSize_sublist (scan_sublist _ _ 0)) hlt

/-! ### The scenario of `TestPack` -/

/-- Puts of distinct CIDs on the fresh datastore insert one row each, in order. -/
theorem run_puts (cfg : Config) (key value : Nat → List Nat) (n : Nat)
    (hinj : ∀ i < n, ∀ j < n, cidOf (key i) = cidOf (key j) → i = j) :
    run cfg ((List.range n).map (fun i => Op.Put (key i) (value i)))
      = { rows := (List.range n).map (fun i =>
            { cid := cidOf (key i), size := (value i).length, created := i,
              data := some (value i), deleted := false, pack_object := [],
              pack_offset := 0, pack_status := Unpacked }),
          objects := [], clock := n, packs := 0 } := by
  induction n with
  | zero => rfl
  | succ n ih =>
    rw [List.range_succ, List.map_append, List.map_cons, List.map_nil, run_append,
      ih (fun i hi j hj => hinj i (by omega) j (by omega))]
    simp only [step, Put]
    rw [if_neg]
    · simp
    · intro hin
      simp only [List.map_map, List.mem_map, List.mem_range, Function.comp] at hin
      obtain ⟨i, hi, e⟩ := hin
      have := hinj i (by omega) n (by omega) e
      omega

theorem testBlob_length (i : Nat) : (testBlob i).length = 262144 := by
  unfold testBlob
  rw [List.length_replicate]

theorem testKey_cid (i : Nat) : cidOf (testKey i) = testCid i := rfl

theorem testPuts_run : run testConfig testPuts = testState := by
  unfold testPuts
  rw [run_puts testConfig testKey testBlob 10 (by decide)]
  simp only [testBlob_length, testKey_cid]
  rfl

theorem range_ten : List.range 10 = [0, 1, 2, 3, 4, 5, 6, 7, 8, 9] := by decide

theorem range_eight : List.range 8 = [0, 1, 2, 3, 4, 5, 6, 7] := by decide

theorem testRows_unpacked : unpackedRows ((List.range 10).map testRow)
    = (List.range 10).map testRow := by
  unfold unpackedRows
  rw [List.filter_eq_self]
  intro b hb
  obtain ⟨i, _, rfl⟩ := List.mem_map.1 hb
  simp [testRow]

theorem testRows_scan : scan testConfig.MaxPackSize 0 ((List.range 10).map testRow)
    = (List.range 8).map testRow := by
  rw [range_ten, range_eight]
  simp [scan, testRow, testConfig]

theorem testRows_total : totalSize ((List.range 8).map testRow) = 2097152 := by
  rw [range_eight]
  simp [totalSize, testRow]

theorem testPuts_consistent : Consistent (firstPut testPuts) testState := by
  have h := consistent_run testConfig testPuts
  rw [testPuts_run] at h
  exact h

theorem testPuts_listUnpacked :
    ListUnpacked (run testConfig testPuts).rows = (List.range 10).map testRow := by
  rw [listUnpacked_eq (consistent_run testConfig testPuts), testPuts_run]
  exact testRows_unpacked

theorem testPuts_nextBatch :
    nextBatch testConfig (run testConfig testPuts) = (List.range 8).map testRow := by
  unfold nextBatch
  rw [testPuts_listUnpacked]
  exact testRows_scan

theorem testCid_mem : ∀ i < 10, (testCid i ∈ (List.range 8).map testCid ↔ i < 8) := by
  decide

/-- After the ten puts and one cycle, `block0` to `block7` are Packed in pack object
`0.zip` and `block8`, `block9` are Unpacked. -/
theorem testTick_rows :
    (run testConfig (testPuts ++ [Op.Tick Fault.none])).rows.map
        (fun b => (b.cid, b.pack_status, b.pack_object))
      = (List.range 10).map (fun i =>
          if i < 8 then (testCid i, Packed, packName 0) else (testCid i, Unpacked, [])) := by
  have hb : scan testConfig.MaxPackSize 0 (ListUnpacked testState.rows)
      = (List.range 8).map testRow := by
    have := testPuts_nextBatch
    unfold nextBatch at this
    rw [testPuts_run] at this
    exact this
  have hmin : ¬ totalSize (scan testConfig.MaxPackSize 0 (ListUnpacked testState.rows))
      < testConfig.MinPackSize := by
    rw [hb, testRows_total]
    decide
  rw [run_append, testPuts_run]
  simp only [step]
  rw [cycle_success testConfig testPuts_consistent hmin]
  simp only [hb, List.map_map]
  show List.map _ ((List.range 10).map testRow) = _
  rw [List.map_map]
  apply List.map_congr_left
  intro i hi
  have hi10 : i < 10 := List.mem_range.1 hi
  have hc : (List.range 8).map ((fun b : Block => b.cid) ∘ testRow) = (List.range 8).map testCid :=
    rfl
  have hcid : (testRow i).cid = testCid i := rfl
  simp only [Function.comp]
  rw [hc, hcid]
  by_cases h8 : i < 8
  · rw [if_pos h8, if_pos ((testCid_mem i hi10).2 h8)]
    rfl
  · rw [if_neg h8, if_neg (fun h => h8 ((testCid_mem i hi10).1 h))]
    rfl

theorem testPuts_small :
    ∀ b ∈ ListUnpacked (run testConfig testPuts).rows, b.size ≤ testConfig.MaxPackSize := by
  intro b hb
  rw [testPuts_listUnpacked] at hb
  obtain ⟨i, _, rfl⟩ := List.mem_map.1 hb
  show 262144 ≤ 2 * 1048576
  decide

theorem testPuts_rest :
    totalSize ((ListUnpacked (run testConfig testPuts).rows).drop 8) = 524288 := by
  rw [testPuts_listUnpacked, range_ten]
  simp [totalSize, testRow]

/-- Witness for C5, the scenario of `TestPack`: with `MinPackSize` 1 MiB, `MaxPackSize`
2 MiB and ten blocks of 256 KiB put as `block0` to `block9`, the batch is `block0` to
`block7` (2 MiB); after the cycle exactly these are Packed, all in pack object `0.zip`,
and `block8`, `block9` (512 KiB) remain Unpacked, also after further cycles. -/
theorem packer_longest_prefix_packed_witness :
    (∀ b ∈ ListUnpacked (run testConfig testPuts).rows, b.size ≤ testConfig.MaxPackSize)
    ∧ ((nextBatch testConfig (run testConfig testPuts)
            <+: ListUnpacked (run testConfig testPuts).rows
          ∧ totalSize (nextBatch testConfig (run testConfig testPuts)) ≤ testConfig.MaxPackSize
          ∧ ∀ p, p <+: ListUnpacked (run testConfig testPuts).rows →
              totalSize p ≤ testConfig.MaxPackSize →
              p.length ≤ (nextBatch testConfig (run testConfig testPuts)).length)
        ∧ (testConfig.MinPackSize ≤ totalSize (nextBatch testConfig (run testConfig testPuts)) →
            (∀ b ∈ nextBatch testConfig (run testConfig testPuts),
              ∃ b2 ∈ (cycle testConfig Fault.none (run testConfig testPuts)).rows,
                b2.cid = b.cid ∧ b2.pack_status = Packed
                  ∧ b2.pack_object = packName (run testConfig testPuts).packs)
            ∧ ListUnpacked (cycle testConfig Fault.none (run testConfig testPuts)).rows
                = (ListUnpacked (run testConfig testPuts).rows).drop
                    (nextBatch testConfig (run testConfig testPuts)).length
            ∧ (totalSize ((ListUnpacked (run testConfig testPuts).rows).drop
                  (nextBatch testConfig (run testConfig testPuts)).length)
                  < testConfig.MinPackSize →
                ∀ faults : List Fault,
                  cycles testConfig faults (cycle testConfig Fault.none (run testConfig testPuts))
                    = cycle testConfig Fault.none (run testConfig testPuts))))
    ∧ nextBatch testConfig (run testConfig testPuts) = (List.range 8).map testRow
    ∧ totalSize (nextBatch testConfig (run testConfig testPuts)) = 2097152
    ∧ totalSize ((ListUnpacked (run testConfig testPuts).rows).drop 8) = 524288
    ∧ (run testConfig (testPuts ++ [Op.Tick Fault.none])).rows.map
          (fun b => (b.cid, b.pack_status, b.pack_object))
        = (List.range 10).map (fun i =>
            if i < 8 then (testCid i, Packed, packName 0) else (testCid i, Unpacked, []))
    ∧ ∀ faults : List Fault,
        cycles testConfig faults (run testConfig (testPuts ++ [Op.Tick Fault.none]))
          = run testConfig (testPuts ++ [Op.Tick Fault.none]) :=
  ⟨testPuts_small,
   packer_longest_prefix_packed testConfig testPuts testPuts_small,
   testPuts_nextBatch,
   by rw [testPuts_nextBatch]; exact testRows_total,
   testPuts_rest,
   testTick_rows,
   by
     intro faults
     have hmin : testConfig.MinPackSize
         ≤ totalSize (nextBatch testConfig (run testConfig testPuts)) := by
       rw [testPuts_nextBatch, testRows_total]; decide
     have hlen : (nextBatch testConfig (run testConfig testPuts)).length = 8 := by
       rw [testPuts_nextBatch, List.length_map, List.length_range]
     have hrest : totalSize ((ListUnpacked (run testConfig testPuts).rows).drop
         (nextBatch testConfig (run testConfig testPuts)).length) < testConfig.MinPackSize := by
       rw [hlen, testPuts_rest]; decide
     rw [run_append]
     exact ((packer_longest_prefix_packed testConfig testPuts testPuts_small).2 hmin).2.2
       hrest faults⟩

end pack
